import Mathlib

/-!
Verification of the band-monitor log parsing and aggregation pipeline.

The Python sources are embedded shallowly:

* a log file is a list of physical lines (strings without the trailing
  newline character);
* a refresh block is the list of lines accumulated between delimiter
  lines, mirroring the string buffer of `LogParser._read_refresh_blocks`
  (the buffer is empty iff the accumulated line list is empty, since
  every appended physical line contributes at least its newline);
* `datetime` values are modelled as natural numbers counting seconds
  (the code only ever adds whole seconds to a file base time and
  extracts the hour of day);
* float values produced by pandas are modelled as exact rationals, with
  `Option ℚ` where the code can produce NaN (`none` stands for NaN);
* the regular expressions `PROCESS_PATTERN` and `CONNECTION_PATTERN`
  are deterministic (every quantified class is disjoint from the token
  that follows it), so they are embedded as straight-line scanners over
  the character list, with `re.match` prefix semantics (trailing text
  after the matched portion is ignored).
-/

/-! ## Python string primitives -/

/-- The double-quote character. -/
def dquote : Char := Char.ofNat 34

/-- The whitespace characters recognised by Python's `str.strip` and the
regex class `\s` (space, tab, newline, carriage return, vertical tab,
form feed), for ASCII input. -/
def pyWhitespace : List Char :=
  [Char.ofNat 32, Char.ofNat 9, Char.ofNat 10, Char.ofNat 13, Char.ofNat 11, Char.ofNat 12]

/-- Whether a character is Python whitespace. -/
def pyIsSpace (c : Char) : Bool := pyWhitespace.contains c

/-- `str.strip()` on a character list: drop whitespace from both ends. -/
def pyStripChars (l : List Char) : List Char :=
  ((l.dropWhile pyIsSpace).reverse.dropWhile pyIsSpace).reverse

/-- Python `line.strip()`. -/
def pyStrip (s : String) : String := String.mk (pyStripChars s.data)

/-- Python `s.startswith(p)`. -/
def strStartsWith (s p : String) : Bool := p.data.isPrefixOf s.data

/-- Whether `needle` occurs as a contiguous sublist of `hay`
(Python's `needle in hay` on strings, for a needle without newlines
checked against a single line). -/
def listContainsSub (needle : List Char) : List Char → Bool
  | [] => needle.isEmpty
  | c :: rest => needle.isPrefixOf (c :: rest) || listContainsSub needle rest

/-- Python `needle in hay` for strings. -/
def strContainsSub (hay needle : String) : Bool := listContainsSub needle.data hay.data

/-! ## Scanner primitives for the two regular expressions -/

/-- Match a literal string at the head of the input and return the rest
(regex literal token). -/
def expectStr (pat : String) (l : List Char) : Option (List Char) :=
  if pat.data.isPrefixOf l then some (l.drop pat.data.length) else none

/-- Match one literal character. -/
def expectChar (c : Char) : List Char → Option (List Char)
  | [] => none
  | x :: xs => if x = c then some xs else none

/-- Regex `\s*`: skip any amount of whitespace. -/
def skipSpaces (l : List Char) : List Char := l.dropWhile pyIsSpace

/-- Numeric value of a digit run (Python `int` on the captured group). -/
def digitsToNat (ds : List Char) : ℕ :=
  ds.foldl (fun a c => a * 10 + (c.toNat - 48)) 0

/-- Regex `(\d+)`: capture one or more digits, greedily. -/
def takeDigits1 (l : List Char) : Option (ℕ × List Char) :=
  let ds := l.takeWhile (fun c => c.isDigit)
  if ds.isEmpty then none else some (digitsToNat ds, l.drop ds.length)

/-- Regex `([^x]+)`-style capture: one or more characters satisfying `p`,
greedily, returned as a string together with the rest of the input. -/
def takeWhile1 (p : Char → Bool) (l : List Char) : Option (String × List Char) :=
  let t := l.takeWhile p
  if t.isEmpty then none else some (String.mk t, l.drop t.length)

/-- Regex `\w` (ASCII): letters, digits and underscore. -/
def isWordChar (c : Char) : Bool := c.isAlphanum || c = '_'

/-! ## Data model (`src/log_parser.py`) -/

/-- `ProcessRecord`: a process line of one refresh block. -/
structure ProcessRecord where
  pid : ℕ
  name : String
  upload_bps : ℕ
  download_bps : ℕ
  connections : ℕ
deriving DecidableEq, Repr

/-- `ConnectionRecord`: a connection line of one refresh block. -/
structure ConnectionRecord where
  pid : ℕ
  local_interface : String
  local_port : ℕ
  remote_address : String
  remote_port : ℕ
  protocol : String
  upload_bps : ℕ
  download_bps : ℕ
  process_name : String
deriving DecidableEq, Repr

/-- `TrafficRecord`: the durable per-connection-per-tick observation. -/
structure TrafficRecord where
  timestamp : ℕ
  pid : ℕ
  process_name : String
  local_interface : String
  local_port : ℕ
  remote_address : String
  remote_port : ℕ
  protocol : String
  upload_bps : ℕ
  download_bps : ℕ
  source_file : String
deriving DecidableEq, Repr

/-- Regex fragment `\s*<(\d+)>`: the bracketed pid that follows both line
prefixes. -/
def scanAnglePid (l : List Char) : Option (ℕ × List Char) :=
  match expectChar '<' (skipSpaces l) with
  | none => none
  | some r1 =>
    match takeDigits1 r1 with
    | none => none
    | some (pid, r2) =>
      match expectChar '>' r2 with
      | none => none
      | some r3 => some (pid, r3)

/-- Regex fragment `\s*"([^"]+)"`: a non-empty quoted name. -/
def scanQuotedName (l : List Char) : Option (String × List Char) :=
  match expectChar dquote (skipSpaces l) with
  | none => none
  | some r1 =>
    match takeWhile1 (fun c => !(c = dquote)) r1 with
    | none => none
    | some (name, r2) =>
      match expectChar dquote r2 with
      | none => none
      | some r3 => some (name, r3)

/-- Regex fragment `\s*up/down Bps:\s*(\d+)/(\d+)`: the rate pair shared by
both line grammars. -/
def scanBpsPair (l : List Char) : Option (ℕ × ℕ × List Char) :=
  match expectStr "up/down Bps:" (skipSpaces l) with
  | none => none
  | some r1 =>
    match takeDigits1 (skipSpaces r1) with
    | none => none
    | some (up, r2) =>
      match expectChar '/' r2 with
      | none => none
      | some r3 =>
        match takeDigits1 r3 with
        | none => none
        | some (down, r4) => some (up, down, r4)

/-- Regex fragment `\s*connections:\s*(\d+)`. -/
def scanConnCount (l : List Char) : Option (ℕ × List Char) :=
  match expectStr "connections:" (skipSpaces l) with
  | none => none
  | some r1 => takeDigits1 (skipSpaces r1)

/-- Regex fragment `\s*<([^>]+)>:(\d+)`: local interface and local port. -/
def scanIfacePort (l : List Char) : Option (String × ℕ × List Char) :=
  match expectChar '<' (skipSpaces l) with
  | none => none
  | some r1 =>
    match takeWhile1 (fun c => !(c = '>')) r1 with
    | none => none
    | some (iface, r2) =>
      match expectChar '>' r2 with
      | none => none
      | some r3 =>
        match expectChar ':' r3 with
        | none => none
        | some r4 =>
          match takeDigits1 r4 with
          | none => none
          | some (lport, r5) => some (iface, lport, r5)

/-- Regex fragment `\s*=>\s*([^:]+):(\d+)`: remote address (anything up to
the port separator, possibly a domain name) and remote port. -/
def scanRemotePort (l : List Char) : Option (String × ℕ × List Char) :=
  match expectStr "=>" (skipSpaces l) with
  | none => none
  | some r1 =>
    match takeWhile1 (fun c => !(c = ':')) (skipSpaces r1) with
    | none => none
    | some (remote, r2) =>
      match expectChar ':' r2 with
      | none => none
      | some r3 =>
        match takeDigits1 r3 with
        | none => none
        | some (rport, r4) => some (remote, rport, r4)

/-- Regex fragment `\s*\((\w+)\)`: the protocol token. -/
def scanProtocol (l : List Char) : Option (String × List Char) :=
  match expectChar '(' (skipSpaces l) with
  | none => none
  | some r1 =>
    match takeWhile1 isWordChar r1 with
    | none => none
    | some (proto, r2) =>
      match expectChar ')' r2 with
      | none => none
      | some r3 => some (proto, r3)

/-- Regex fragment `\s*process:\s*"([^"]+)"`: the trailing process name of a
connection line. -/
def scanTrailingProcName (l : List Char) : Option (String × List Char) :=
  match expectStr "process:" (skipSpaces l) with
  | none => none
  | some r1 => scanQuotedName r1

/-- `LogParser._parse_process_line`: `re.match(PROCESS_PATTERN, line)` with
`PROCESS_PATTERN = process:\s*<(\d+)>\s*"([^"]+)"\s*up/down Bps:\s*(\d+)/(\d+)\s*connections:\s*(\d+)`.
`re.match` anchors at the start only, so trailing text is ignored. -/
def parseProcessLine (line : String) : Option ProcessRecord :=
  match expectStr "process:" line.data with
  | none => none
  | some r0 =>
    match scanAnglePid r0 with
    | none => none
    | some (pid, r1) =>
      match scanQuotedName r1 with
      | none => none
      | some (name, r2) =>
        match scanBpsPair r2 with
        | none => none
        | some (up, down, r3) =>
          match scanConnCount r3 with
          | none => none
          | some (conns, _) =>
            some { pid := pid, name := name, upload_bps := up, download_bps := down,
                   connections := conns }

/-- `LogParser._parse_connection_line`: `re.match(CONNECTION_PATTERN, line)` with
`CONNECTION_PATTERN = connection:\s*<(\d+)>\s*<([^>]+)>:(\d+)\s*=>\s*([^:]+):(\d+)\s*\((\w+)\)\s*up/down Bps:\s*(\d+)/(\d+)\s*process:\s*"([^"]+)"`. -/
def parseConnectionLine (line : String) : Option ConnectionRecord :=
  match expectStr "connection:" line.data with
  | none => none
  | some r0 =>
    match scanAnglePid r0 with
    | none => none
    | some (pid, r1) =>
      match scanIfacePort r1 with
      | none => none
      | some (iface, lport, r2) =>
        match scanRemotePort r2 with
        | none => none
        | some (remote, rport, r3) =>
          match scanProtocol r3 with
          | none => none
          | some (proto, r4) =>
            match scanBpsPair r4 with
            | none => none
            | some (up, down, r5) =>
              match scanTrailingProcName r5 with
              | none => none
              | some (pname, _) =>
                some { pid := pid, local_interface := iface, local_port := lport,
                       remote_address := remote, remote_port := rport, protocol := proto,
                       upload_bps := up, download_bps := down, process_name := pname }

/-! ## Block tokenizer and block parser -/

/-- One step of the line loop of `_parse_refresh_block` (lines 103-118):
strip the line, skip it when empty, classify by prefix, parse, and extend
the pid map (a Python dict, modelled as an association list where a later
entry for the same pid shadows an earlier one) or the connection list. -/
def blockScanStep (acc : List (ℕ × ProcessRecord) × List ConnectionRecord) (rawLine : String) :
    List (ℕ × ProcessRecord) × List ConnectionRecord :=
  let line := pyStrip rawLine
  if line = "" then acc
  else if strStartsWith line "process:" then
    match parseProcessLine line with
    | some p => (acc.1 ++ [(p.pid, p)], acc.2)
    | none => acc
  else if strStartsWith line "connection:" then
    match parseConnectionLine line with
    | some c => (acc.1, acc.2 ++ [c])
    | none => acc
  else acc

/-- The full line loop of `_parse_refresh_block`, collecting the pid map
and the connection list. -/
def blockScan (block : List String) : List (ℕ × ProcessRecord) × List ConnectionRecord :=
  block.foldl blockScanStep ([], [])

/-- `process_map.get(pid, default)`: dict lookup where the most recently
inserted entry for a pid wins. -/
def pmLookup (pm : List (ℕ × ProcessRecord)) (pid : ℕ) : Option ProcessRecord :=
  (pm.reverse.find? (fun e => e.1 == pid)).map (fun e => e.2)

/-- `LogParser._parse_refresh_block`: one `TrafficRecord` per collected
connection, with the process name resolved through the pid map and falling
back to the name carried on the connection line (lines 120-141). -/
def parseRefreshBlock (block : List String) (timestamp : ℕ) (sourceFile : String) :
    List TrafficRecord :=
  let scanned := blockScan block
  scanned.2.map (fun conn =>
    let procRec := (pmLookup scanned.1 conn.pid).getD
      { pid := conn.pid, name := conn.process_name, upload_bps := 0,
        download_bps := 0, connections := 0 }
    { timestamp := timestamp, pid := conn.pid, process_name := procRec.name,
      local_interface := conn.local_interface, local_port := conn.local_port,
      remote_address := conn.remote_address, remote_port := conn.remote_port,
      protocol := conn.protocol, upload_bps := conn.upload_bps,
      download_bps := conn.download_bps, source_file := sourceFile })

/-- The loop body of `LogParser._read_refresh_blocks` with the current
buffer made explicit: a line starting with `Refreshing:` flushes a
non-empty buffer; any other line is appended to the buffer; a final
non-empty buffer is flushed at end of input. -/
def readBlocksAux (buffer : List String) : List String → List (List String)
  | [] => if buffer.isEmpty then [] else [buffer]
  | l :: ls =>
    if strStartsWith l "Refreshing:" then
      if buffer.isEmpty then readBlocksAux [] ls else buffer :: readBlocksAux [] ls
    else readBlocksAux (buffer ++ [l]) ls

/-- `LogParser._read_refresh_blocks` on the file's line list. -/
def readRefreshBlocks (lines : List String) : List (List String) :=
  readBlocksAux [] lines

/-- The skip condition of `parse_file` (line 68):
`not block.strip() or '<NO TRAFFIC>' in block`. The whole-block strip is
empty iff every line strips to empty, and the sentinel contains no newline
so it occurs in the joined block iff it occurs in some line. -/
def skipBlock (block : List String) : Bool :=
  block.all (fun l => pyStrip l == "") || block.any (fun l => strContainsSub l "<NO TRAFFIC>")

/-- The `enumerate` loop of `parse_file` (lines 67-77), carrying the
running block index explicitly: a skipped block contributes no records but
still consumes its index; a kept block at index `i` is parsed with the
synthetic timestamp `base_time + i` seconds. -/
def parseBlocksFrom (baseTime : ℕ) (sourceFile : String) (idx : ℕ) :
    List (List String) → List TrafficRecord
  | [] => []
  | b :: bs =>
    (if skipBlock b then [] else parseRefreshBlock b (baseTime + idx) sourceFile)
      ++ parseBlocksFrom baseTime sourceFile (idx + 1) bs

/-- `LogParser.parse_file` on the file content given as a line list. -/
def parseFile (baseTime : ℕ) (sourceFile : String) (lines : List String) :
    List TrafficRecord :=
  parseBlocksFrom baseTime sourceFile 0 (readRefreshBlocks lines)

example : parseProcessLine "process: <12345> \x22firefox\x22 up/down Bps: 100/200 connections: 3" =
    some { pid := 12345, name := "firefox", upload_bps := 100, download_bps := 200,
           connections := 3 } := by decide

example : (parseConnectionLine
    "connection: <12345> <eth0>:54321 => 8.8.8.8:443 (tcp) up/down Bps: 100/200 process: \x22firefox\x22").isSome = true := by decide

example : parseConnectionLine "connection: <12345> <eth0>:54321 => 8.8.8.8:443 (tcp)" = none := by
  decide

/-! ## Aggregation (`src/report_generator.py`)

pandas `groupby` visits groups in ascending key order (`sort=True` is the
default), each group being the sub-list of rows with that key in original
row order.  Float results are modelled as exact rationals; NaN as `none`. -/

/-- Half-to-even rounding of a rational to an integer (the rounding used
by numpy/pandas `.round`). -/
def roundHalfEven (q : ℚ) : ℤ :=
  if q - ⌊q⌋ < 1/2 then ⌊q⌋
  else if 1/2 < q - ⌊q⌋ then ⌊q⌋ + 1
  else if Even ⌊q⌋ then ⌊q⌋ else ⌊q⌋ + 1

/-- pandas `.round(2)`: round to two decimal places. -/
def roundTo2 (q : ℚ) : ℚ := (roundHalfEven (q * 100) : ℚ) / 100

/-- Lexicographic comparison of character lists by Unicode code point:
the string ordering used by Python (and hence by pandas when sorting
string group keys). -/
def lexLe : List Char → List Char → Bool
  | [], _ => true
  | _ :: _, [] => false
  | a :: as, b :: bs =>
    if a.toNat < b.toNat then true
    else if b.toNat < a.toNat then false
    else lexLe as bs

/-- Python string `<=`. -/
def pyStrLe (s t : String) : Bool := lexLe s.data t.data

/-- Python string `<=` as a decidable relation. -/
abbrev strLe (a b : String) : Prop := pyStrLe a b = true

/-- The distinct values of a string column, in ascending order: the group
keys of a pandas `groupby`. -/
def sortedKeys (l : List String) : List String :=
  List.insertionSort strLe l.dedup

/-- The distinct values of an integer column, in ascending order. -/
def sortedKeysNat (l : List ℕ) : List ℕ :=
  List.insertionSort (· ≤ ·) l.dedup

/-- pandas `nunique`: number of distinct values. -/
def nunique {α : Type} [DecidableEq α] (l : List α) : ℕ := l.dedup.length

/-- `max` aggregate of a group of naturals (groups are non-empty, so the
`0` seed is never the result unless it is the true maximum). -/
def maxNat (l : List ℕ) : ℕ := l.foldr max 0

/-- `mean` aggregate (groups are non-empty by construction). -/
def meanQ (l : List ℕ) : ℚ := (l.sum : ℚ) / (l.length : ℚ)

/-- The `std` aggregate, represented by its square: the sample variance
with divisor `n - 1`, NaN (`none`) on groups of size at most one, exactly
as pandas `std`.  The code stores `sqrt` of this value rounded to two
decimals; the square root is strictly monotone on non-negative rationals,
so equalities between variances and between standard deviations coincide,
and the rounding is a function of the value. -/
def sampleVarQ (l : List ℕ) : Option ℚ :=
  if l.length ≤ 1 then none
  else some ((l.map (fun x : ℕ => ((x : ℚ) - meanQ l) ^ 2)).sum / ((l.length : ℚ) - 1))

/-- The rows of `df.groupby(key)` for one key value `k`: the records whose
key column equals `k`, in original order. -/
def groupBy {κ : Type} [DecidableEq κ] (key : TrafficRecord → κ) (recs : List TrafficRecord)
    (k : κ) : List TrafficRecord :=
  recs.filter (fun r => decide (key r = k))

/-- One row of `_calculate_process_summary`.  Sums and maxes are integers
(`.round(2)` leaves them unchanged); means and percentage shares are
rounded rationals; `std` is carried as the sample variance (see
`sampleVarQ`); the percentage shares are NaN (`none`) when the day total
is zero, since the float quotient `0 / 0` is NaN. -/
structure ProcSummaryRow where
  process_name : String
  upload_sum : ℕ
  upload_mean : ℚ
  upload_max : ℕ
  upload_std : Option ℚ
  download_sum : ℕ
  download_mean : ℚ
  download_max : ℕ
  download_std : Option ℚ
  unique_pids : ℕ
  unique_remotes : ℕ
  upload_pct : Option ℚ
  download_pct : Option ℚ
deriving DecidableEq, Repr

/-- The group keys of `df.groupby('process_name')`. -/
def procKeys (recs : List TrafficRecord) : List String :=
  sortedKeys (recs.map (fun r => r.process_name))

/-- `total_upload = summary['upload_sum'].sum()`: the day total computed,
as in the code, by summing the per-group sums. -/
def totalUploadByGroups (recs : List TrafficRecord) : ℕ :=
  ((procKeys recs).map (fun k =>
    ((groupBy (fun r => r.process_name) recs k).map (fun r => r.upload_bps)).sum)).sum

/-- `total_download = summary['download_sum'].sum()`. -/
def totalDownloadByGroups (recs : List TrafficRecord) : ℕ :=
  ((procKeys recs).map (fun k =>
    ((groupBy (fun r => r.process_name) recs k).map (fun r => r.download_bps)).sum)).sum

/-- `(part / whole * 100).round(2)` in float arithmetic: NaN (`none`) when
the whole is zero (the only reachable zero-denominator case is `0 / 0`,
since every group sum is bounded by the day total). -/
def pctShare (part whole : ℕ) : Option ℚ :=
  if whole = 0 then none else some (roundTo2 ((part : ℚ) / (whole : ℚ) * 100))

/-- One output row of `_calculate_process_summary` for key `k`. -/
def procRow (recs : List TrafficRecord) (k : String) : ProcSummaryRow :=
  let g := groupBy (fun r => r.process_name) recs k
  let ups := g.map (fun r => r.upload_bps)
  let downs := g.map (fun r => r.download_bps)
  { process_name := k
    upload_sum := ups.sum
    upload_mean := roundTo2 (meanQ ups)
    upload_max := maxNat ups
    upload_std := sampleVarQ ups
    download_sum := downs.sum
    download_mean := roundTo2 (meanQ downs)
    download_max := maxNat downs
    download_std := sampleVarQ downs
    unique_pids := nunique (g.map (fun r => r.pid))
    unique_remotes := nunique (g.map (fun r => r.remote_address))
    upload_pct := pctShare ups.sum (totalUploadByGroups recs)
    download_pct := pctShare downs.sum (totalDownloadByGroups recs) }

/-- `ReportGenerator._calculate_process_summary`. -/
def processSummary (recs : List TrafficRecord) : List ProcSummaryRow :=
  (procKeys recs).map (procRow recs)

/-- The protocol aggregate `lambda x: x.mode()[0] if not x.empty else ''`:
pandas `mode` returns the most frequent values in ascending sorted order,
so `[0]` is the lexicographically smallest value of maximal multiplicity;
the empty-group branch returns the empty string. -/
def commonProtocol (ps : List String) : String :=
  let cands := sortedKeys ps
  let m := maxNat (cands.map (fun c => ps.count c))
  (cands.filter (fun c => ps.count c == m)).headD ""

/-- `ReportGenerator._is_ip_address`: the regex `^\d{1,3}(\.\d{1,3}){3}$`,
i.e. exactly four groups of one to three digits separated by dots (no
octet-range validation). -/
def isIpGroup (l : List Char) : Bool :=
  !l.isEmpty && l.length ≤ 3 && l.all (fun c => c.isDigit)

/-- Splits a character list at dots (helper for `isIpAddress`). -/
def splitAtDots (l : List Char) : List (List Char) :=
  match l with
  | [] => [[]]
  | c :: rest =>
    let parts := splitAtDots rest
    if c = Char.ofNat 46 then [] :: parts
    else match parts with
      | [] => [[c]]
      | p :: ps => (c :: p) :: ps

/-- The dotted-quad test of `_is_ip_address`. -/
def isIpAddress (s : String) : Bool :=
  let parts := splitAtDots s.data
  parts.length == 4 && parts.all isIpGroup

/-- One row of `_calculate_remote_summary`. -/
structure RemoteSummaryRow where
  remote_address : String
  upload_sum : ℕ
  upload_mean : ℚ
  upload_max : ℕ
  download_sum : ℕ
  download_mean : ℚ
  download_max : ℕ
  unique_processes : ℕ
  common_protocol : String
  is_ip : Bool
deriving DecidableEq, Repr

/-- One output row of `_calculate_remote_summary` for one remote address. -/
def remoteRow (recs : List TrafficRecord) (addr : String) : RemoteSummaryRow :=
  let g := groupBy (fun r => r.remote_address) recs addr
  let ups := g.map (fun r => r.upload_bps)
  let downs := g.map (fun r => r.download_bps)
  { remote_address := addr
    upload_sum := ups.sum
    upload_mean := roundTo2 (meanQ ups)
    upload_max := maxNat ups
    download_sum := downs.sum
    download_mean := roundTo2 (meanQ downs)
    download_max := maxNat downs
    unique_processes := nunique (g.map (fun r => r.process_name))
    common_protocol := commonProtocol (g.map (fun r => r.protocol))
    is_ip := isIpAddress addr }

/-- `ReportGenerator._calculate_remote_summary`. -/
def remoteSummary (recs : List TrafficRecord) : List RemoteSummaryRow :=
  (sortedKeys (recs.map (fun r => r.remote_address))).map (remoteRow recs)

/-- Hour-of-day of a record's timestamp (`dt.hour` on the naive datetime,
with timestamps counted in seconds from a day-aligned epoch). -/
def hourOf (r : TrafficRecord) : ℕ := r.timestamp / 3600 % 24

/-- One row of the hourly aggregation of `_calculate_time_summary`. -/
structure HourlyRow where
  hour : ℕ
  upload_sum : ℕ
  download_sum : ℕ
  unique_processes : ℕ
deriving DecidableEq, Repr

/-- `ReportGenerator._calculate_time_summary`: per-hour sums and distinct
process count, hours in ascending order. -/
def hourlySummary (recs : List TrafficRecord) : List HourlyRow :=
  (sortedKeysNat (recs.map hourOf)).map (fun h =>
    let g := recs.filter (fun r => decide (hourOf r = h))
    { hour := h
      upload_sum := (g.map (fun r => r.upload_bps)).sum
      download_sum := (g.map (fun r => r.download_bps)).sum
      unique_processes := nunique (g.map (fun r => r.process_name)) })

/-- pandas `Series.nlargest(n)` on a series given as (label, value) pairs
in series order: the `n` largest values in descending order, ties kept in
series order (`keep='first'`). -/
def nlargestPairs {κ : Type} (n : ℕ) (pairs : List (κ × ℕ)) : List (κ × ℕ) :=
  (List.insertionSort (fun a b => b.2 ≤ a.2) pairs).take n

/-- `_get_top_items` with a column-name metric over a string grouping key:
group, sum the column per group, take the top `n`. -/
def topItemsByField (recs : List TrafficRecord)
    (key : TrafficRecord → String) (field : TrafficRecord → ℕ) (n : ℕ) : List (String × ℕ) :=
  nlargestPairs n ((sortedKeys (recs.map key)).map (fun k =>
    (k, ((groupBy key recs k).map field).sum)))

/-- `_get_top_items` with the `'count'` pseudo-metric over an integer
grouping key: group sizes. -/
def topItemsByCount (recs : List TrafficRecord)
    (key : TrafficRecord → ℕ) (n : ℕ) : List (ℕ × ℕ) :=
  nlargestPairs n ((sortedKeysNat (recs.map key)).map (fun k =>
    (k, (groupBy key recs k).length)))

/-- The (key, row)-labelled series produced by the callable metric
`lambda x: x['upload_bps'] + x['download_bps']` when the day has at least
two remote-address groups: the lambda returns a `Series` per group, the
per-group Series carry disjoint — hence differing — row-index sets, and
`groupby(...).apply` concatenates them into one series indexed by
(group key, original row position): one entry per row, not per group.
Row positions come from the default `RangeIndex` of the DataFrame built
from the record list. -/
def customTrafficEntries (recs : List TrafficRecord) : List ((String × ℕ) × ℕ) :=
  (sortedKeys (recs.map (fun r => r.remote_address))).flatMap (fun k =>
    (recs.enum.filter (fun e => decide (e.2.remote_address = k))).map
      (fun e => ((k, e.1), e.2.upload_bps + e.2.download_bps)))

/-- `top_remotes_by_traffic`: `_get_top_items` with the callable metric.
An empty frame returns `[]` before grouping.  With exactly one
remote-address group the per-group Series all share the same index, so
pandas stacks the `groupby(...).apply` result into a DataFrame instead of
a series, and `grouped.nlargest(10)` raises `TypeError`
(`DataFrame.nlargest` requires a `columns` argument): this error path is
modelled as `none`.  With two or more groups the result is `nlargest(10)`
over the (key, row)-labelled series. -/
def topRemotesByTraffic (recs : List TrafficRecord) : Option (List ((String × ℕ) × ℕ)) :=
  if recs.isEmpty then some []
  else if (sortedKeys (recs.map (fun r => r.remote_address))).length = 1 then none
  else some ((List.insertionSort (fun a b => b.2 ≤ a.2) (customTrafficEntries recs)).take 10)

/-- `top_processes_by_upload` of the summary report. -/
def topProcessesByUpload (recs : List TrafficRecord) : List (String × ℕ) :=
  topItemsByField recs (fun r => r.process_name) (fun r => r.upload_bps) 10

/-- `top_processes_by_download` of the summary report. -/
def topProcessesByDownload (recs : List TrafficRecord) : List (String × ℕ) :=
  topItemsByField recs (fun r => r.process_name) (fun r => r.download_bps) 10

/-- `most_active_ports` of the summary report. -/
def mostActivePorts (recs : List TrafficRecord) : List (ℕ × ℕ) :=
  topItemsByCount recs (fun r => r.local_port) 10

/-- The per-direction statistics of `_generate_statistics_report`:
sum, mean, max and the linearly interpolated percentiles. -/
structure TrafficStats where
  total_bytes : ℕ
  average_bps : ℚ
  max_bps : ℕ
  p50 : ℚ
  p90 : ℚ
  p95 : ℚ
  p99 : ℚ
deriving DecidableEq, Repr

/-- pandas `Series.quantile(p)` with the default linear interpolation:
with the values sorted ascending as `v₀ … vₙ₋₁`, the quantile is
`v_k + (h - k) * (v_{k+1} - v_k)` at `h = (n - 1) * p`, `k = ⌊h⌋`. -/
def quantileLinear (xs : List ℕ) (p : ℚ) : ℚ :=
  let s := List.insertionSort (· ≤ ·) xs
  let h : ℚ := ((s.length : ℚ) - 1) * p
  let k : ℕ := (⌊h⌋).toNat
  (s.getD k 0 : ℚ) + (h - (⌊h⌋ : ℚ)) * ((s.getD (k + 1) 0 : ℚ) - (s.getD k 0 : ℚ))

/-- The statistics block of `_generate_statistics_report` for one column. -/
def trafficStats (vals : List ℕ) : TrafficStats :=
  { total_bytes := vals.sum
    average_bps := meanQ vals
    max_bps := maxNat vals
    p50 := quantileLinear vals (1/2)
    p90 := quantileLinear vals (9/10)
    p95 := quantileLinear vals (95/100)
    p99 := quantileLinear vals (99/100) }

/-- pandas `idxmax` on a series in ascending key order: the first key
attaining the maximal value. -/
def leastKeyWithMaxVal (pairs : List (String × ℕ)) : String :=
  let m := maxNat (pairs.map (fun e => e.2))
  ((pairs.filter (fun e => e.2 == m)).map (fun e => e.1)).headD ""

/-- The order-independent core of `_generate_statistics_report` (the
`value_counts().head(20)` frequency tables are omitted: their tie order is
an artefact of row order and is not part of any claim under proof). -/
structure StatsReport where
  upload : TrafficStats
  download : TrafficStats
  total_connections : ℕ
  unique_ports : ℕ
  total_processes : ℕ
  process_with_most_connections : String
  process_with_most_traffic : String
deriving DecidableEq, Repr

/-- `_generate_statistics_report` on the day's record list. -/
def statsReport (recs : List TrafficRecord) : StatsReport :=
  { upload := trafficStats (recs.map (fun r => r.upload_bps))
    download := trafficStats (recs.map (fun r => r.download_bps))
    total_connections := recs.length
    unique_ports := nunique (recs.map (fun r => r.local_port))
    total_processes := nunique (recs.map (fun r => r.process_name))
    process_with_most_connections := leastKeyWithMaxVal ((procKeys recs).map (fun k =>
      (k, (groupBy (fun r => r.process_name) recs k).length)))
    process_with_most_traffic := leastKeyWithMaxVal ((procKeys recs).map (fun k =>
      (k, ((groupBy (fun r => r.process_name) recs k).map (fun r => r.upload_bps)).sum))) }

/-! ## Report existence check and the idempotent-rerun filter
(`src/file_scanner.py`, `src/main.py`) -/

/-- `f"report_{date_str}.json"`. -/
def reportJsonName (d : String) : String := "report_" ++ d ++ ".json"

/-- `f"summary_{date_str}.json"`. -/
def summaryJsonName (d : String) : String := "summary_" ++ d ++ ".json"

/-- Whether a file name matches the glob pattern `report_<date>_*.json`:
the literal part before `*` is a prefix, the literal part after it is a
suffix, and the two do not overlap (`*` matches any, possibly empty, run
of characters; the file names at play contain no path separator). -/
def matchesReportGlob (d f : String) : Bool :=
  ("report_" ++ d ++ "_").data.isPrefixOf f.data
    && ".json".data.isSuffixOf f.data
    && ("report_" ++ d ++ "_").data.length + ".json".data.length ≤ f.data.length

/-- `FileScanner.check_report_exists`: the report directory (given by its
file-name listing) contains a file matching one of the three patterns
`report_<date>.json`, `report_<date>_*.json`, `summary_<date>.json`. -/
def checkReportExists (dirFiles : List String) (dateStr : String) : Bool :=
  dirFiles.any (fun f => f == reportJsonName dateStr)
    || dirFiles.any (fun f => matchesReportGlob dateStr f)
    || dirFiles.any (fun f => f == summaryJsonName dateStr)

/-- The already-processed-date filter of `NetworkMonitor.generate_report`
(`main.py` lines 77-82): the dict comprehension keeping only the dates for
which `check_report_exists` is false.  A date is keyed by its `YYYYMMDD`
string and carries its scanned log files (as line lists); only the kept
entries flow into the per-day processing that parses logs and writes
`report_<date>.json`. -/
def generateReportDates (dirFiles : List String)
    (dateFiles : List (String × List (List String))) :
    List (String × List (List String)) :=
  dateFiles.filter (fun p => !(checkReportExists dirFiles p.1))

/-! ## Specification-side reference definitions

These definitions follow the wording of the specification (not the code)
and exist only to be compared against the embedded code. -/

/-- Modelled from the spec: the tokenizer loop as the specification words
it, with a block boundary only at a line exactly equal to the delimiter
token `Refreshing:` ("an exact-match line"). -/
def readBlocksExactAux (buffer : List String) : List String → List (List String)
  | [] => if buffer.isEmpty then [] else [buffer]
  | l :: ls =>
    if l = "Refreshing:" then
      if buffer.isEmpty then readBlocksExactAux [] ls else buffer :: readBlocksExactAux [] ls
    else readBlocksExactAux (buffer ++ [l]) ls

/-- Modelled from the spec: `_read_refresh_blocks` with an exact-match
delimiter. -/
def readRefreshBlocksExact (lines : List String) : List (List String) :=
  readBlocksExactAux [] lines

/-- Modelled from the spec: the most-frequent protocol with ties broken in
favour of the protocol first seen in input order. -/
def commonProtocolFirstSeen (ps : List String) : String :=
  let m := maxNat (ps.map (fun c => ps.count c))
  (ps.find? (fun c => ps.count c == m)).getD ""

/-- The process records of a block, in line order: the per-line process
parses that succeed.  (A line that does not start with `process:` can
never match `PROCESS_PATTERN`, so this coincides with the code's
prefix-dispatched loop.) -/
def procsOf (block : List String) : List ProcessRecord :=
  block.filterMap (fun l => parseProcessLine (pyStrip l))

/-- The connection records of a block, in line order. -/
def connsOf (block : List String) : List ConnectionRecord :=
  block.filterMap (fun l => parseConnectionLine (pyStrip l))

/-- The join policy as the specification words it: the name of the
most-recently-seen process record with the connection's pid, falling back
to the name embedded in the connection line. -/
def resolveName (procs : List ProcessRecord) (conn : ConnectionRecord) : String :=
  match procs.reverse.find? (fun p => p.pid == conn.pid) with
  | some p => p.name
  | none => conn.process_name

/-! ## Concrete sample lines used by the witnesses and counterexamples -/

/-- A syntactically valid connection line. -/
def connLineFirefox : String :=
  "connection: <1> <eth0>:1 => 8.8.8.8:53 (udp) up/down Bps: 5/6 process: \x22firefox\x22"

/-- A file whose first line precedes the first delimiter (a non-empty
leading pseudo-block). -/
def c1Lines : List String := ["junk", "Refreshing:", connLineFirefox]

/-- A record with zero traffic in both directions. -/
def recZero : TrafficRecord :=
  { timestamp := 0, pid := 1, process_name := "p", local_interface := "eth0",
    local_port := 1, remote_address := "8.8.8.8", remote_port := 53, protocol := "udp",
    upload_bps := 0, download_bps := 0, source_file := "a.log" }

/-- First record of the protocol-tie pair: `udp` seen first. -/
def recUdp : TrafficRecord :=
  { timestamp := 0, pid := 1, process_name := "p1", local_interface := "eth0",
    local_port := 1, remote_address := "1.2.3.4", remote_port := 53, protocol := "udp",
    upload_bps := 1, download_bps := 1, source_file := "a.log" }

/-- Second record of the protocol-tie pair: `tcp` seen second, same
remote address. -/
def recTcp : TrafficRecord :=
  { timestamp := 0, pid := 2, process_name := "p2", local_interface := "eth0",
    local_port := 2, remote_address := "1.2.3.4", remote_port := 80, protocol := "tcp",
    upload_bps := 2, download_bps := 2, source_file := "a.log" }

/-- A low-traffic record for the remote address `a.com`. -/
def recSmall : TrafficRecord :=
  { timestamp := 0, pid := 1, process_name := "alpha", local_interface := "eth0",
    local_port := 1, remote_address := "a.com", remote_port := 80, protocol := "tcp",
    upload_bps := 4, download_bps := 6, source_file := "a.log" }

/-- A high-traffic record for a second remote address `b.com`, so that a
day holding `recSmall` and `recBig` has two remote-address groups. -/
def recBig : TrafficRecord :=
  { timestamp := 0, pid := 2, process_name := "beta", local_interface := "eth0",
    local_port := 2, remote_address := "b.com", remote_port := 80, protocol := "tcp",
    upload_bps := 15, download_bps := 5, source_file := "a.log" }

/-! ## Tokenizer lemmas -/

/-- The buffer of `_read_refresh_blocks` is only flushed when non-empty,
so no yielded block is empty. -/
lemma mem_readBlocksAux_ne_nil :
    ∀ (lines buffer b : List String), b ∈ readBlocksAux buffer lines → b ≠ [] := by
  intro lines
  induction lines with
  | nil =>
    intro buffer b hb
    by_cases h : buffer.isEmpty
    · simp [readBlocksAux, h] at hb
    · simp [readBlocksAux, h] at hb
      subst hb
      simpa [List.isEmpty_iff] using h
  | cons l ls ih =>
    intro buffer b hb
    by_cases hd : strStartsWith l "Refreshing:"
    · by_cases h : buffer.isEmpty
      · simp [readBlocksAux, hd, h] at hb
        exact ih [] b hb
      · simp [readBlocksAux, hd, h] at hb
        rcases hb with hb | hb
        · subst hb
          simpa [List.isEmpty_iff] using h
        · exact ih [] b hb
    · simp [readBlocksAux, hd] at hb
      exact ih (buffer ++ [l]) b hb

/-- Splitting the tokenizer run at the first delimiter-prefixed line. -/
lemma readBlocksAux_split (d : String) (hd : strStartsWith d "Refreshing:" = true) :
    ∀ (l₁ buffer l₂ : List String),
      (∀ l ∈ l₁, strStartsWith l "Refreshing:" = false) →
      readBlocksAux buffer (l₁ ++ d :: l₂) =
        (if (buffer ++ l₁).isEmpty then [] else [buffer ++ l₁]) ++ readBlocksAux [] l₂ := by
  intro l₁
  induction l₁ with
  | nil =>
    intro buffer l₂ _
    by_cases h : buffer.isEmpty
    · simp [readBlocksAux, hd, h]
    · simp [readBlocksAux, hd, h]
  | cons a l ih =>
    intro buffer l₂ hall
    have ha : strStartsWith a "Refreshing:" = false := hall a (by simp)
    have hrest : ∀ x ∈ l, strStartsWith x "Refreshing:" = false :=
      fun x hx => hall x (by simp [hx])
    simp only [List.cons_append, readBlocksAux, ha, Bool.false_eq_true, if_false,
      List.append_eq]
    rw [ih (buffer ++ [a]) l₂ hrest]
    simp [List.append_assoc]

/-- The enumeration of `parse_file` started at index `i + 1` equals the
enumeration started at index `i` with the base time advanced by one
second. -/
lemma parseBlocksFrom_succ :
    ∀ (blocks : List (List String)) (base : ℕ) (src : String) (i : ℕ),
      parseBlocksFrom base src (i + 1) blocks = parseBlocksFrom (base + 1) src i blocks := by
  intro blocks
  induction blocks with
  | nil => intro base src i; rfl
  | cons b bs ih =>
    intro base src i
    have h1 : base + (i + 1) = base + 1 + i := by omega
    simp only [parseBlocksFrom, h1, ih]

/-- Every record of a parsed block carries the timestamp the block was
parsed with. -/
lemma timestamp_of_mem_parseRefreshBlock {b : List String} {t : ℕ} {src : String}
    {r : TrafficRecord} (h : r ∈ parseRefreshBlock b t src) : r.timestamp = t := by
  simp only [parseRefreshBlock, List.mem_map] at h
  obtain ⟨c, _, rfl⟩ := h
  rfl

/-- Every record produced by the block enumeration comes from a
non-skipped block, parsed at the timestamp given by its running index. -/
lemma mem_parseBlocksFrom :
    ∀ (blocks : List (List String)) (base : ℕ) (src : String) (i : ℕ) (r : TrafficRecord),
      r ∈ parseBlocksFrom base src i blocks →
      ∃ j b, blocks.get? j = some b ∧ skipBlock b = false ∧
        r ∈ parseRefreshBlock b (base + (i + j)) src := by
  intro blocks
  induction blocks with
  | nil => intro base src i r hr; simp [parseBlocksFrom] at hr
  | cons b bs ih =>
    intro base src i r hr
    simp only [parseBlocksFrom, List.mem_append] at hr
    rcases hr with hr | hr
    · by_cases hs : skipBlock b
      · simp [hs] at hr
      · refine ⟨0, b, rfl, by simpa using hs, ?_⟩
        simpa [hs] using hr
    · obtain ⟨j, b', h1, h2, h3⟩ := ih base src (i + 1) r hr
      refine ⟨j + 1, b', by simpa using h1, h2, ?_⟩
      have : base + (i + 1 + j) = base + (i + (j + 1)) := by omega
      rwa [this] at h3

/-- Every record produced from index `i` on has timestamp at least
`base + i`. -/
lemma timestamp_ge_of_mem_parseBlocksFrom :
    ∀ (blocks : List (List String)) (base : ℕ) (src : String) (i : ℕ) (r : TrafficRecord),
      r ∈ parseBlocksFrom base src i blocks → base + i ≤ r.timestamp := by
  intro blocks base src i r hr
  obtain ⟨j, b, _, _, hmem⟩ := mem_parseBlocksFrom blocks base src i r hr
  have := timestamp_of_mem_parseRefreshBlock hmem
  omega

/-- A list all of whose elements are equal is weakly sorted. -/
lemma pairwise_le_of_const {l : List ℕ} {c : ℕ} (h : ∀ x ∈ l, x = c) :
    List.Pairwise (· ≤ ·) l := by
  induction l with
  | nil => exact List.Pairwise.nil
  | cons a t ih =>
    refine List.Pairwise.cons ?_ (ih fun x hx => h x (by simp [hx]))
    intro x hx
    have := h a (by simp)
    have := h x (by simp [hx])
    omega

/-- The timestamps produced by the block enumeration are weakly
increasing. -/
lemma parseBlocksFrom_sorted :
    ∀ (blocks : List (List String)) (base : ℕ) (src : String) (i : ℕ),
      List.Sorted (· ≤ ·) ((parseBlocksFrom base src i blocks).map (fun r => r.timestamp)) := by
  intro blocks
  induction blocks with
  | nil => intro base src i; simp [parseBlocksFrom, List.Sorted]
  | cons b bs ih =>
    intro base src i
    simp only [parseBlocksFrom, List.map_append, List.Sorted]
    rw [List.pairwise_append]
    refine ⟨?_, ih base src (i + 1), ?_⟩
    · refine pairwise_le_of_const (c := base + i) ?_
      intro x hx
      by_cases hs : skipBlock b
      · simp [hs] at hx
      · simp only [hs, if_false, List.mem_map] at hx
        obtain ⟨r, hr, rfl⟩ := hx
        exact timestamp_of_mem_parseRefreshBlock hr
    · intro x hx y hy
      have hxv : x = base + i := by
        by_cases hs : skipBlock b
        · simp [hs] at hx
        · simp only [hs, if_false, List.mem_map] at hx
          obtain ⟨r, hr, rfl⟩ := hx
          exact timestamp_of_mem_parseRefreshBlock hr
      obtain ⟨r, hr, rfl⟩ := List.mem_map.mp hy
      have := timestamp_ge_of_mem_parseBlocksFrom bs base src (i + 1) r hr
      omega

/-- A character that fails the predicate survives `dropWhile`. -/
lemma mem_dropWhile_of_not {p : Char → Bool} {c : Char} (hc : p c = false) :
    ∀ {l : List Char}, c ∈ l → c ∈ l.dropWhile p := by
  intro l hm
  have hsplit : l.takeWhile p ++ l.dropWhile p = l := List.takeWhile_append_dropWhile p l
  rcases List.mem_append.mp (hsplit ▸ hm) with h | h
  · have := List.mem_takeWhile_imp h
    simp [hc] at this
  · exact h

/-- A non-whitespace character of the input survives the two-sided strip,
so the stripped result is non-empty. -/
lemma pyStripChars_ne_nil {l : List Char} {c : Char} (hc : pyIsSpace c = false)
    (hm : c ∈ l) : pyStripChars l ≠ [] := by
  have h1 : c ∈ l.dropWhile pyIsSpace := mem_dropWhile_of_not hc hm
  have h2 : c ∈ (l.dropWhile pyIsSpace).reverse.dropWhile pyIsSpace :=
    mem_dropWhile_of_not hc (List.mem_reverse.mpr h1)
  intro hcon
  rw [pyStripChars, List.reverse_eq_nil_iff] at hcon
  rw [hcon] at h2
  simp at h2

/-- If a line strips to the empty string, all its characters are
whitespace. -/
lemma all_space_of_strip_empty {s : String} (h : pyStrip s = "") :
    ∀ c ∈ s.data, pyIsSpace c = true := by
  intro c hc
  by_contra hns
  have hc' : pyIsSpace c = false := by simpa using hns
  have hne : pyStripChars s.data ≠ [] := pyStripChars_ne_nil hc' hc
  apply hne
  have := congrArg String.data h
  simpa [pyStrip] using this

/-- A non-empty whitespace-only line is not a delimiter line. -/
lemma not_delim_of_strip_empty {w : String} (hw : pyStrip w = "") :
    strStartsWith w "Refreshing:" = false := by
  by_contra h
  have h' : strStartsWith w "Refreshing:" = true := by simpa using h
  have hpre : "Refreshing:".data <+: w.data := by
    simpa [strStartsWith, List.isPrefixOf_iff_prefix] using h'
  obtain ⟨t, ht⟩ := hpre
  have hmem : ('R' : Char) ∈ "Refreshing:".data := by decide
  have hR : ('R' : Char) ∈ w.data := ht ▸ List.mem_append_left t hmem
  exact absurd (all_space_of_strip_empty hw 'R' hR) (by decide)

/-- Two adjacent delimiter lines leave the buffer empty in between, so the
tokenizer output is unchanged when one of them is removed. -/
lemma readBlocksAux_dd :
    ∀ (l₁ buffer l₂ : List String),
      readBlocksAux buffer (l₁ ++ "Refreshing:" :: "Refreshing:" :: l₂) =
      readBlocksAux buffer (l₁ ++ "Refreshing:" :: l₂) := by
  intro l₁
  induction l₁ with
  | nil =>
    intro buffer l₂
    have hD : strStartsWith "Refreshing:" "Refreshing:" = true := by decide
    by_cases h : buffer.isEmpty = true
    · simp [readBlocksAux, hD, h]
    · have h' : buffer.isEmpty = false := by simpa using h
      simp [readBlocksAux, hD, h']
  | cons a l ih =>
    intro buffer l₂
    by_cases ha : strStartsWith a "Refreshing:" = true
    · by_cases h : buffer.isEmpty = true
      · simp [readBlocksAux, ha, h, ih]
      · have h' : buffer.isEmpty = false := by simpa using h
        simp [readBlocksAux, ha, h', ih]
    · have ha' : strStartsWith a "Refreshing:" = false := by simpa using ha
      simp [readBlocksAux, ha', ih]

/-- C9: the tokenizer never yields an empty block: the zero-length gap
between two adjacent delimiter lines is dropped and consumes no block
index, whereas a non-empty whitespace-only block is yielded, consumes a
block index — shifting every later block's synthetic timestamp by one
second — and produces no TrafficRecords (the whole run equals the run
without the whitespace block but with the base time advanced by one
second). -/
theorem c9_tokenizer_blocks :
    (∀ (lines b : List String), b ∈ readRefreshBlocks lines → b ≠ []) ∧
    (∀ (l₁ l₂ : List String),
      readRefreshBlocks (l₁ ++ "Refreshing:" :: "Refreshing:" :: l₂) =
        readRefreshBlocks (l₁ ++ "Refreshing:" :: l₂)) ∧
    (∀ (base : ℕ) (src w : String) (l₂ : List String),
      pyStrip w = "" → w ≠ "" →
      readRefreshBlocks ("Refreshing:" :: w :: "Refreshing:" :: l₂) =
        [w] :: readRefreshBlocks ("Refreshing:" :: l₂) ∧
      parseFile base src ("Refreshing:" :: w :: "Refreshing:" :: l₂) =
        parseFile (base + 1) src ("Refreshing:" :: l₂)) := by
  refine ⟨fun lines b hb => mem_readBlocksAux_ne_nil lines [] b hb,
    fun l₁ l₂ => readBlocksAux_dd l₁ [] l₂, ?_⟩
  intro base src w l₂ hw _
  have hwd : strStartsWith w "Refreshing:" = false := not_delim_of_strip_empty hw
  have hD : strStartsWith "Refreshing:" "Refreshing:" = true := by decide
  have hblocks : readRefreshBlocks ("Refreshing:" :: w :: "Refreshing:" :: l₂) =
      [w] :: readBlocksAux [] l₂ := by
    simp [readRefreshBlocks, readBlocksAux, hD, hwd]
  have hblocks2 : readRefreshBlocks ("Refreshing:" :: l₂) = readBlocksAux [] l₂ := by
    simp [readRefreshBlocks, readBlocksAux, hD]
  refine ⟨by rw [hblocks, hblocks2], ?_⟩
  have hskip : skipBlock [w] = true := by simp [skipBlock, hw]
  rw [parseFile, parseFile, hblocks, hblocks2]
  simp only [parseBlocksFrom, hskip, if_true, List.nil_append]
  exact parseBlocksFrom_succ _ base src 0

/-- C9 witness: a concrete whitespace-only block between two delimiters
shifts the following block's records by one second. -/
theorem c9_witness :
    pyStrip " " = "" ∧ (" " : String) ≠ "" ∧
    parseFile 5 "f.log" ["Refreshing:", " ", "Refreshing:", connLineFirefox] =
      parseFile 6 "f.log" ["Refreshing:", connLineFirefox] :=
  ⟨by decide, by decide,
    (c9_tokenizer_blocks.2.2 5 "f.log" " " [connLineFirefox] (by decide) (by decide)).2⟩

/-- C4 counterexample: the code's tokenizer (`line.startswith`) treats the
line `"Refreshing: x"` — which merely begins with the delimiter token and
carries trailing text — as a block boundary, whereas the claimed
exact-match tokenizer keeps it as ordinary block content. -/
theorem c4_counterexample :
    readRefreshBlocks ["a", "Refreshing: x", "b"] = [["a"], ["b"]] ∧
    readRefreshBlocksExact ["a", "Refreshing: x", "b"] = [["a", "Refreshing: x", "b"]] := by
  exact ⟨by decide, by decide⟩

/-- C4 (amended): a new block starts exactly at the lines that *start
with* the token `Refreshing:` (with or without trailing text), and at no
other line: ahead of the first such line the input forms one pseudo-block
(dropped when empty), and tokenization resumes on the remaining lines. -/
theorem c4_block_boundaries (d : String) (l₁ l₂ : List String)
    (hd : strStartsWith d "Refreshing:" = true)
    (hl : ∀ l ∈ l₁, strStartsWith l "Refreshing:" = false) :
    readRefreshBlocks (l₁ ++ d :: l₂) =
      (if l₁.isEmpty then [] else [l₁]) ++ readRefreshBlocks l₂ := by
  have := readBlocksAux_split d hd l₁ [] l₂ hl
  simpa [readRefreshBlocks] using this

/-- C4 witness: the boundary theorem applied to a delimiter line with
trailing text. -/
theorem c4_witness :
    strStartsWith "Refreshing: extra" "Refreshing:" = true ∧
    readRefreshBlocks (["a"] ++ "Refreshing: extra" :: ["b"]) =
      [["a"]] ++ readRefreshBlocks ["b"] :=
  ⟨by decide, by
    have h := c4_block_boundaries "Refreshing: extra" ["a"] ["b"] (by decide)
      (by intro l hl; simp only [List.mem_singleton] at hl; subst hl; decide)
    simpa using h⟩

/-- C1 counterexample: with a non-empty leading pseudo-block (`"junk"`
precedes the first delimiter), the record of the first *refresh* block —
ordinal 0 when the pseudo-block is not counted — carries timestamp
`base + 1`, not `base + 0`: `enumerate` counts the yielded pseudo-block. -/
theorem c1_counterexample :
    (parseFile 0 "a.log" c1Lines).map (fun r => r.timestamp) = [1] ∧
    readRefreshBlocks c1Lines = [["junk"], [connLineFirefox]] := by
  exact ⟨by decide, by decide⟩

/-- C1 (amended): every record comes from some yielded block — the
non-empty leading pseudo-block included — and carries timestamp
`base + i` where `i` is that block's 0-based position among *all* yielded
blocks; consequently the timestamps of a file's records are monotonically
non-decreasing in output order. -/
theorem c1_synthetic_clock (base : ℕ) (src : String) (lines : List String) :
    List.Sorted (· ≤ ·) ((parseFile base src lines).map (fun r => r.timestamp)) ∧
    ∀ r ∈ parseFile base src lines, ∃ i b,
      (readRefreshBlocks lines).get? i = some b ∧ skipBlock b = false ∧
      r ∈ parseRefreshBlock b (base + i) src ∧ r.timestamp = base + i := by
  refine ⟨parseBlocksFrom_sorted _ base src 0, ?_⟩
  intro r hr
  obtain ⟨j, b, h1, h2, h3⟩ := mem_parseBlocksFrom _ base src 0 r hr
  have h3' : r ∈ parseRefreshBlock b (base + j) src := by simpa using h3
  exact ⟨j, b, h1, h2, h3', timestamp_of_mem_parseRefreshBlock h3'⟩

/-- C1 witness: the amended clock theorem at a concrete file. -/
theorem c1_witness :
    List.Sorted (· ≤ ·) ((parseFile 3 "a.log" c1Lines).map (fun r => r.timestamp)) :=
  (c1_synthetic_clock 3 "a.log" c1Lines).1

/-! ## Line parser lemmas -/

/-- A successful literal match means the pattern is a prefix. -/
lemma expectStr_eq_some {pat : String} {l r : List Char} (h : expectStr pat l = some r) :
    pat.data.isPrefixOf l = true := by
  unfold expectStr at h
  split at h
  · assumption
  · exact absurd h (by simp)

/-- A captured `([^x]+)` group is never the empty string. -/
lemma takeWhile1_ne_empty {p : Char → Bool} {l : List Char} {s : String} {r : List Char}
    (h : takeWhile1 p l = some (s, r)) : s ≠ "" := by
  unfold takeWhile1 at h
  cases hc : (l.takeWhile p).isEmpty with
  | true => simp [hc] at h
  | false =>
    simp only [hc, Bool.false_eq_true, if_false, Option.some.injEq, Prod.mk.injEq] at h
    intro hs
    rw [hs] at h
    have h0 : (l.takeWhile p) = [] := by
      have := h.1
      have hdata := congrArg String.data this
      simpa using hdata
    rw [h0] at hc
    simp at hc

/-- The quoted-name capture is non-empty. -/
lemma scanQuotedName_ne_empty {l : List Char} {s : String} {r : List Char}
    (h : scanQuotedName l = some (s, r)) : s ≠ "" := by
  unfold scanQuotedName at h
  cases h1 : expectChar dquote (skipSpaces l) with
  | none => simp [h1] at h
  | some r1 =>
    simp only [h1] at h
    cases h2 : takeWhile1 (fun c => !(c = dquote)) r1 with
    | none => simp [h2] at h
    | some nr =>
      obtain ⟨name, r2⟩ := nr
      simp only [h2] at h
      cases h3 : expectChar dquote r2 with
      | none => simp [h3] at h
      | some r3 =>
        simp only [h3, Option.some.injEq, Prod.mk.injEq] at h
        exact h.1 ▸ takeWhile1_ne_empty h2

/-- The trailing process-name capture of a connection line is non-empty. -/
lemma scanTrailingProcName_ne_empty {l : List Char} {s : String} {r : List Char}
    (h : scanTrailingProcName l = some (s, r)) : s ≠ "" := by
  unfold scanTrailingProcName at h
  cases h1 : expectStr "process:" (skipSpaces l) with
  | none => simp [h1] at h
  | some r1 =>
    simp only [h1] at h
    exact scanQuotedName_ne_empty h

/-- A parsed process record carries a non-empty name (the regex group
`([^"]+)` requires at least one character). -/
lemma parseProcessLine_name_ne_empty {line : String} {p : ProcessRecord}
    (h : parseProcessLine line = some p) : p.name ≠ "" := by
  unfold parseProcessLine at h
  cases h0 : expectStr "process:" line.data with
  | none => simp [h0] at h
  | some r0 =>
    simp only [h0] at h
    cases h1 : scanAnglePid r0 with
    | none => simp [h1] at h
    | some pr =>
      obtain ⟨pid, r1⟩ := pr
      simp only [h1] at h
      cases h2 : scanQuotedName r1 with
      | none => simp [h2] at h
      | some nr =>
        obtain ⟨name, r2⟩ := nr
        simp only [h2] at h
        cases h3 : scanBpsPair r2 with
        | none => simp [h3] at h
        | some ur =>
          obtain ⟨up, down, r3⟩ := ur
          simp only [h3] at h
          cases h4 : scanConnCount r3 with
          | none => simp [h4] at h
          | some cr =>
            obtain ⟨conns, r4⟩ := cr
            simp only [h4, Option.some.injEq] at h
            rw [← h]
            simpa using scanQuotedName_ne_empty h2

/-- A parsed connection record carries a non-empty process name. -/
lemma parseConnectionLine_name_ne_empty {line : String} {c : ConnectionRecord}
    (h : parseConnectionLine line = some c) : c.process_name ≠ "" := by
  unfold parseConnectionLine at h
  cases h0 : expectStr "connection:" line.data with
  | none => simp [h0] at h
  | some r0 =>
    simp only [h0] at h
    cases h1 : scanAnglePid r0 with
    | none => simp [h1] at h
    | some pr =>
      obtain ⟨pid, r1⟩ := pr
      simp only [h1] at h
      cases h2 : scanIfacePort r1 with
      | none => simp [h2] at h
      | some ir =>
        obtain ⟨iface, lport, r2⟩ := ir
        simp only [h2] at h
        cases h3 : scanRemotePort r2 with
        | none => simp [h3] at h
        | some rr =>
          obtain ⟨remote, rport, r3⟩ := rr
          simp only [h3] at h
          cases h4 : scanProtocol r3 with
          | none => simp [h4] at h
          | some tr =>
            obtain ⟨proto, r4⟩ := tr
            simp only [h4] at h
            cases h5 : scanBpsPair r4 with
            | none => simp [h5] at h
            | some ur =>
              obtain ⟨up, down, r5⟩ := ur
              simp only [h5] at h
              cases h6 : scanTrailingProcName r5 with
              | none => simp [h6] at h
              | some nr =>
                obtain ⟨pname, r6⟩ := nr
                simp only [h6, Option.some.injEq] at h
                rw [← h]
                simpa using scanTrailingProcName_ne_empty h6

/-- A line that parses as a process line starts with `process:`. -/
lemma parseProcessLine_startsWith {line : String} {p : ProcessRecord}
    (h : parseProcessLine line = some p) : strStartsWith line "process:" = true := by
  unfold parseProcessLine at h
  cases h0 : expectStr "process:" line.data with
  | none => simp [h0] at h
  | some r0 => simpa [strStartsWith] using expectStr_eq_some h0

/-- A line that parses as a connection line starts with `connection:`. -/
lemma parseConnectionLine_startsWith {line : String} {c : ConnectionRecord}
    (h : parseConnectionLine line = some c) : strStartsWith line "connection:" = true := by
  unfold parseConnectionLine at h
  cases h0 : expectStr "connection:" line.data with
  | none => simp [h0] at h
  | some r0 => simpa [strStartsWith] using expectStr_eq_some h0

/-- A string cannot start with both line prefixes. -/
lemma not_conn_of_proc {s : String} (h : strStartsWith s "process:" = true) :
    strStartsWith s "connection:" = false := by
  by_contra hcon
  have hc : strStartsWith s "connection:" = true := by simpa using hcon
  unfold strStartsWith at h hc
  cases hs : s.data with
  | nil =>
    rw [hs] at h
    exact absurd h (by decide)
  | cons x xs =>
    rw [hs] at h hc
    have hp : "process:".data = 'p' :: "rocess:".data := rfl
    have hcd : "connection:".data = 'c' :: "onnection:".data := rfl
    rw [hp] at h
    rw [hcd] at hc
    simp only [List.isPrefixOf, Bool.and_eq_true, beq_iff_eq] at h hc
    rw [← h.1] at hc
    exact absurd hc.1 (by decide)

/-- A line not starting with `connection:` never parses as a connection
line. -/
lemma parseConnectionLine_none {s : String} (h : strStartsWith s "connection:" = false) :
    parseConnectionLine s = none := by
  cases hp : parseConnectionLine s with
  | none => rfl
  | some c => rw [parseConnectionLine_startsWith hp] at h; cases h

/-- A line not starting with `process:` never parses as a process line. -/
lemma parseProcessLine_none {s : String} (h : strStartsWith s "process:" = false) :
    parseProcessLine s = none := by
  cases hp : parseProcessLine s with
  | none => rfl
  | some p => rw [parseProcessLine_startsWith hp] at h; cases h

/-! ## Block extraction lemmas -/

/-- Case analysis of one step of the block-scanning loop: the step either
leaves the accumulator unchanged (blank line, unparsable line), appends a
pid-map entry (process line), or appends a connection (connection line);
the two parses are mutually exclusive because the line prefixes differ. -/
lemma blockScanStep_cases (acc : List (ℕ × ProcessRecord) × List ConnectionRecord) (l : String) :
    (blockScanStep acc l = acc ∧ parseConnectionLine (pyStrip l) = none ∧
      parseProcessLine (pyStrip l) = none) ∨
    (∃ p, parseProcessLine (pyStrip l) = some p ∧
      blockScanStep acc l = (acc.1 ++ [(p.pid, p)], acc.2) ∧
      parseConnectionLine (pyStrip l) = none) ∨
    (∃ c, parseConnectionLine (pyStrip l) = some c ∧
      blockScanStep acc l = (acc.1, acc.2 ++ [c]) ∧
      parseProcessLine (pyStrip l) = none) := by
  by_cases he : pyStrip l = ""
  · left
    exact ⟨by simp [blockScanStep, he], by rw [he]; decide, by rw [he]; decide⟩
  · by_cases hp : strStartsWith (pyStrip l) "process:" = true
    · have hcn : parseConnectionLine (pyStrip l) = none :=
        parseConnectionLine_none (not_conn_of_proc hp)
      cases hpp : parseProcessLine (pyStrip l) with
      | none => left; exact ⟨by simp [blockScanStep, he, hp, hpp], hcn, rfl⟩
      | some p => right; left; exact ⟨p, rfl, by simp [blockScanStep, he, hp, hpp], hcn⟩
    · have hp' : strStartsWith (pyStrip l) "process:" = false := by simpa using hp
      have hpn : parseProcessLine (pyStrip l) = none := parseProcessLine_none hp'
      by_cases hc : strStartsWith (pyStrip l) "connection:" = true
      · cases hcc : parseConnectionLine (pyStrip l) with
        | none => left; exact ⟨by simp [blockScanStep, he, hp', hc, hcc], rfl, hpn⟩
        | some c => right; right; exact ⟨c, rfl, by simp [blockScanStep, he, hp', hc, hcc], hpn⟩
      · have hc' : strStartsWith (pyStrip l) "connection:" = false := by simpa using hc
        have hcn : parseConnectionLine (pyStrip l) = none := parseConnectionLine_none hc'
        left
        exact ⟨by simp [blockScanStep, he, hp', hc'], hcn, hpn⟩

/-- The scan collects exactly one connection per line whose stripped form
parses as a connection line. -/
lemma foldl_blockScanStep_length :
    ∀ (lines : List String) (acc : List (ℕ × ProcessRecord) × List ConnectionRecord),
      (lines.foldl blockScanStep acc).2.length =
        acc.2.length + lines.countP (fun l => (parseConnectionLine (pyStrip l)).isSome) := by
  intro lines
  induction lines with
  | nil => intro acc; simp
  | cons l ls ih =>
    intro acc
    rw [List.foldl_cons, List.countP_cons]
    rcases blockScanStep_cases acc l with ⟨hstep, hcn, _⟩ | ⟨p, _, hstep, hcn⟩ |
      ⟨c, hcc, hstep, _⟩
    · rw [hstep, ih]
      simp [hcn]
    · rw [hstep, ih]
      simp [hcn]
    · rw [hstep, ih]
      simp only [hcc, Option.isSome_some, if_pos, List.length_append, List.length_cons,
        List.length_nil]
      omega

/-- Every name stored by the scan — pid-map names and connection-line
fallback names — is non-empty. -/
lemma foldl_blockScanStep_names :
    ∀ (lines : List String) (acc : List (ℕ × ProcessRecord) × List ConnectionRecord),
      (∀ e ∈ acc.1, e.2.name ≠ "") → (∀ c ∈ acc.2, c.process_name ≠ "") →
      (∀ e ∈ (lines.foldl blockScanStep acc).1, e.2.name ≠ "") ∧
      (∀ c ∈ (lines.foldl blockScanStep acc).2, c.process_name ≠ "") := by
  intro lines
  induction lines with
  | nil => intro acc h1 h2; exact ⟨h1, h2⟩
  | cons l ls ih =>
    intro acc h1 h2
    rw [List.foldl_cons]
    rcases blockScanStep_cases acc l with ⟨hstep, _, _⟩ | ⟨p, hpp, hstep, _⟩ |
      ⟨c, hcc, hstep, _⟩
    · rw [hstep]; exact ih acc h1 h2
    · rw [hstep]
      refine ih _ ?_ h2
      intro e he
      rcases List.mem_append.mp he with he | he
      · exact h1 e he
      · simp only [List.mem_singleton] at he
        rw [he]
        exact parseProcessLine_name_ne_empty hpp
    · rw [hstep]
      refine ih _ h1 ?_
      intro c' hc'
      rcases List.mem_append.mp hc' with hc' | hc'
      · exact h2 c' hc'
      · simp only [List.mem_singleton] at hc'
        rw [hc']
        exact parseConnectionLine_name_ne_empty hcc

/-- C2: block extraction emits exactly one TrafficRecord per syntactically
valid connection line — whether or not any process line matches — and
every emitted record has a non-empty process name.  (The count of valid
process lines plays no role, so the claim's `M ≤ N` side condition is not
needed.) -/
theorem c2_block_extraction (block : List String) (t : ℕ) (src : String) :
    (parseRefreshBlock block t src).length =
      block.countP (fun l => (parseConnectionLine (pyStrip l)).isSome) ∧
    ∀ r ∈ parseRefreshBlock block t src, r.process_name ≠ "" := by
  constructor
  · simp only [parseRefreshBlock, List.length_map]
    have := foldl_blockScanStep_length block ([], [])
    simpa [blockScan] using this
  · intro r hr
    simp only [parseRefreshBlock, List.mem_map] at hr
    obtain ⟨c, hc, rfl⟩ := hr
    have hnames := foldl_blockScanStep_names block ([], []) (by simp) (by simp)
    dsimp only
    cases hpm : pmLookup (blockScan block).1 c.pid with
    | none =>
      simp only [hpm, Option.getD_none]
      exact hnames.2 c hc
    | some p =>
      simp only [hpm, Option.getD_some]
      have hfind := hpm
      unfold pmLookup at hfind
      cases hfe : (blockScan block).1.reverse.find? (fun e => e.1 == c.pid) with
      | none => rw [hfe] at hfind; simp at hfind
      | some e =>
        rw [hfe] at hfind
        simp only [Option.map_some', Option.some.injEq] at hfind
        have hmem : e ∈ (blockScan block).1 :=
          List.mem_reverse.mp (List.mem_of_find?_eq_some hfe)
        have := hnames.1 e hmem
        rw [← hfind]
        exact this

/-- C2 witness: a block with two valid connection lines, one valid process
line and one junk line yields exactly two records, all with non-empty
process names. -/
theorem c2_witness :
    (parseRefreshBlock ["process: <1> \x22firefox\x22 up/down Bps: 3/4 connections: 2",
        connLineFirefox, "junk", connLineFirefox] 7 "a.log").length =
      (["process: <1> \x22firefox\x22 up/down Bps: 3/4 connections: 2",
        connLineFirefox, "junk", connLineFirefox].countP
        (fun l => (parseConnectionLine (pyStrip l)).isSome)) ∧
    ∀ r ∈ parseRefreshBlock ["process: <1> \x22firefox\x22 up/down Bps: 3/4 connections: 2",
        connLineFirefox, "junk", connLineFirefox] 7 "a.log", r.process_name ≠ "" :=
  c2_block_extraction _ 7 "a.log"

/-- The block scan is exactly: collect all parsed process lines into the
pid map (in line order) and all parsed connection lines into the
connection list. -/
lemma foldl_blockScanStep_eq :
    ∀ (lines : List String) (acc : List (ℕ × ProcessRecord) × List ConnectionRecord),
      lines.foldl blockScanStep acc =
        (acc.1 ++ (procsOf lines).map (fun p => (p.pid, p)), acc.2 ++ connsOf lines) := by
  intro lines
  induction lines with
  | nil => intro acc; simp [procsOf, connsOf]
  | cons l ls ih =>
    intro acc
    rw [List.foldl_cons]
    rcases blockScanStep_cases acc l with ⟨hstep, hcn, hpn⟩ | ⟨p, hpp, hstep, hcn⟩ |
      ⟨c, hcc, hstep, hpn⟩
    · rw [hstep, ih]
      simp [procsOf, connsOf, List.filterMap_cons, hcn, hpn]
    · rw [hstep, ih]
      simp [procsOf, connsOf, List.filterMap_cons, hcn, hpp]
    · rw [hstep, ih]
      simp [procsOf, connsOf, List.filterMap_cons, hcc, hpn]

/-- Looking up a pid in the reversed pid-keyed pairing of a process list
is the reversed search of the process list itself. -/
lemma find?_map_pairs (procs : List ProcessRecord) (pid : ℕ) :
    (procs.map (fun p => (p.pid, p))).reverse.find? (fun e => e.1 == pid) =
      (procs.reverse.find? (fun p => p.pid == pid)).map (fun p => (p.pid, p)) := by
  rw [← List.map_reverse]
  induction procs.reverse with
  | nil => simp
  | cons q qs ih =>
    simp only [List.map_cons, List.find?_cons]
    by_cases hq : (q.pid == pid) = true
    · simp [hq]
    · have hq' : (q.pid == pid) = false := by simpa using hq
      simp [hq', ih]

/-- Python's `process_map.get(pid, default)` on the scanned map equals the
most-recently-seen search over the parsed process lines. -/
lemma pmLookup_pairs (procs : List ProcessRecord) (pid : ℕ) :
    pmLookup (procs.map (fun p => (p.pid, p))) pid =
      procs.reverse.find? (fun p => p.pid == pid) := by
  unfold pmLookup
  rw [find?_map_pairs]
  cases procs.reverse.find? (fun p => p.pid == pid) <;> simp

/-- C3: block extraction equals the specification's join policy — one
record per connection line, its process name taken from the
most-recently-seen process line with the connection's pid when one exists
in the block (later duplicates shadow earlier ones), and otherwise from
the name embedded in the connection line itself. -/
theorem c3_process_name_resolution (block : List String) (t : ℕ) (src : String) :
    parseRefreshBlock block t src = (connsOf block).map (fun c =>
      { timestamp := t, pid := c.pid,
        process_name := resolveName (procsOf block) c,
        local_interface := c.local_interface, local_port := c.local_port,
        remote_address := c.remote_address, remote_port := c.remote_port,
        protocol := c.protocol, upload_bps := c.upload_bps,
        download_bps := c.download_bps, source_file := src }) := by
  simp only [parseRefreshBlock]
  have hscan : blockScan block = ((procsOf block).map (fun p => (p.pid, p)), connsOf block) := by
    have := foldl_blockScanStep_eq block ([], [])
    simpa [blockScan] using this
  rw [hscan]
  refine congrArg (fun f => List.map f (connsOf block)) ?_
  funext c
  simp only [pmLookup_pairs, resolveName]
  cases hf : (procsOf block).reverse.find? (fun p => p.pid == c.pid) with
  | none => simp [hf]
  | some p => simp [hf]

/-- C3 witness: the join policy at a concrete block where the process line
for pid 1 appears after the connection line and a second process line for
the same pid shadows the first. -/
theorem c3_witness :
    parseRefreshBlock [connLineFirefox,
        "process: <1> \x22early\x22 up/down Bps: 1/2 connections: 1",
        "process: <1> \x22late\x22 up/down Bps: 3/4 connections: 1"] 9 "b.log" =
      (connsOf [connLineFirefox,
        "process: <1> \x22early\x22 up/down Bps: 1/2 connections: 1",
        "process: <1> \x22late\x22 up/down Bps: 3/4 connections: 1"]).map (fun c =>
      { timestamp := 9, pid := c.pid,
        process_name := resolveName (procsOf [connLineFirefox,
          "process: <1> \x22early\x22 up/down Bps: 1/2 connections: 1",
          "process: <1> \x22late\x22 up/down Bps: 3/4 connections: 1"]) c,
        local_interface := c.local_interface, local_port := c.local_port,
        remote_address := c.remote_address, remote_port := c.remote_port,
        protocol := c.protocol, upload_bps := c.upload_bps,
        download_bps := c.download_bps, source_file := "b.log" }) :=
  c3_process_name_resolution _ 9 "b.log"

/-! ## Report-existence lemmas -/

/-- Two strings whose data disagree under any observation are not `==`. -/
lemma beq_false_of_data_fn {γ : Type} (g : List Char → γ) {s t : String}
    (h : g s.data ≠ g t.data) : (s == t) = false := by
  rw [beq_eq_false_iff_ne]
  intro he
  exact h (by rw [he])

/-- A suffix check fails when the last characters disagree. -/
lemma isSuffixOf_false_of_rev_head {l₁ l₂ : List Char} {c₁ c₂ : Char}
    (h1 : l₁.reverse.head? = some c₁) (h2 : l₂.reverse.head? = some c₂) (hne : c₁ ≠ c₂) :
    l₁.isSuffixOf l₂ = false := by
  cases hcase : l₁.isSuffixOf l₂
  · rfl
  · exfalso
    have hsuf : l₁ <:+ l₂ := List.isSuffixOf_iff_suffix.mp hcase
    obtain ⟨t, ht⟩ := hsuf
    rw [← ht, List.reverse_append] at h2
    cases hrev : l₁.reverse with
    | nil => rw [hrev] at h1; simp at h1
    | cons a as =>
      rw [hrev] at h1 h2
      simp only [List.cons_append, List.head?_cons, Option.some.injEq] at h1 h2
      exact hne (h1 ▸ h2 ▸ rfl)

/-- A prefix check fails when the first characters disagree. -/
lemma isPrefixOf_false_of_head {l₁ l₂ : List Char} {c₁ c₂ : Char}
    (h1 : l₁.head? = some c₁) (h2 : l₂.head? = some c₂) (hne : c₁ ≠ c₂) :
    l₁.isPrefixOf l₂ = false := by
  cases l₁ with
  | nil => simp at h1
  | cons a as =>
    cases l₂ with
    | nil => simp at h2
    | cons b bs =>
      simp only [List.head?_cons, Option.some.injEq] at h1 h2
      have : (a == b) = false := by
        rw [beq_eq_false_iff_ne]
        rw [h1, h2]
        exact hne
      simp [List.isPrefixOf, this]

/-- C10: `check_report_exists` returns true iff the report directory holds
a file matching `report_<date>.json`, `report_<date>_*.json` or
`summary_<date>.json`; and, for every date, a directory holding only
`report_<date>.csv`, `report_<date>.parquet` and `stats_<date>.json` does
not count as an existing report. -/
theorem c10_check_report_exists (files : List String) (d : String) :
    (checkReportExists files d = true ↔ ∃ f ∈ files,
      f = reportJsonName d ∨ matchesReportGlob d f = true ∨ f = summaryJsonName d) ∧
    checkReportExists ["report_" ++ d ++ ".csv", "report_" ++ d ++ ".parquet",
      "stats_" ++ d ++ ".json"] d = false := by
  constructor
  · simp only [checkReportExists, Bool.or_eq_true, List.any_eq_true, beq_iff_eq]
    constructor
    · rintro ((⟨f, hf, hr⟩ | ⟨f, hf, hg⟩) | ⟨f, hf, hs⟩)
      exacts [⟨f, hf, Or.inl hr⟩, ⟨f, hf, Or.inr (Or.inl hg)⟩, ⟨f, hf, Or.inr (Or.inr hs)⟩]
    · rintro ⟨f, hf, hr | hg | hs⟩
      exacts [Or.inl (Or.inl ⟨f, hf, hr⟩), Or.inl (Or.inr ⟨f, hf, hg⟩), Or.inr ⟨f, hf, hs⟩]
  · have ecsv : ("report_" ++ d ++ ".csv").data.reverse.head? = some 'v' := by
      rw [String.data_append, List.reverse_append]; rfl
    have epq : ("report_" ++ d ++ ".parquet").data.reverse.head? = some 't' := by
      rw [String.data_append, List.reverse_append]; rfl
    have estats : ("stats_" ++ d ++ ".json").data.head? = some 's' := by
      rw [String.data_append, String.data_append]; rfl
    have erj : (reportJsonName d).data.reverse.head? = some 'n' := by
      rw [reportJsonName, String.data_append, List.reverse_append]; rfl
    have esj : (summaryJsonName d).data.reverse.head? = some 'n' := by
      rw [summaryJsonName, String.data_append, List.reverse_append]; rfl
    have ejson : (".json" : String).data.reverse.head? = some 'n' := by rfl
    have erpre : ("report_" ++ d ++ "_").data.head? = some 'r' := by
      rw [String.data_append, String.data_append]; rfl
    have estats2 : ("stats_" ++ d ++ ".json").data.take 2 = ['s', 't'] := by
      rw [String.data_append, String.data_append]; rfl
    have esj2 : (summaryJsonName d).data.take 2 = ['s', 'u'] := by
      rw [summaryJsonName, String.data_append, String.data_append]; rfl
    have h1 : (("report_" ++ d ++ ".csv") == reportJsonName d) = false :=
      beq_false_of_data_fn (fun l => l.reverse.head?) (by dsimp only; rw [ecsv, erj]; decide)
    have h2 : matchesReportGlob d ("report_" ++ d ++ ".csv") = false := by
      unfold matchesReportGlob
      rw [isSuffixOf_false_of_rev_head ejson ecsv (by decide)]
      simp
    have h3 : (("report_" ++ d ++ ".csv") == summaryJsonName d) = false :=
      beq_false_of_data_fn (fun l => l.reverse.head?) (by dsimp only; rw [ecsv, esj]; decide)
    have h4 : (("report_" ++ d ++ ".parquet") == reportJsonName d) = false :=
      beq_false_of_data_fn (fun l => l.reverse.head?) (by dsimp only; rw [epq, erj]; decide)
    have h5 : matchesReportGlob d ("report_" ++ d ++ ".parquet") = false := by
      unfold matchesReportGlob
      rw [isSuffixOf_false_of_rev_head ejson epq (by decide)]
      simp
    have h6 : (("report_" ++ d ++ ".parquet") == summaryJsonName d) = false :=
      beq_false_of_data_fn (fun l => l.reverse.head?) (by dsimp only; rw [epq, esj]; decide)
    have h7 : (("stats_" ++ d ++ ".json") == reportJsonName d) = false := by
      refine beq_false_of_data_fn (fun l => l.head?) ?_
      have : (reportJsonName d).data.head? = some 'r' := by
        rw [reportJsonName, String.data_append, String.data_append]; rfl
      dsimp only
      rw [estats, this]; decide
    have h8 : matchesReportGlob d ("stats_" ++ d ++ ".json") = false := by
      unfold matchesReportGlob
      have hs : ("stats_" ++ d ++ ".json").data.head? = some 's' := estats
      rw [isPrefixOf_false_of_head erpre hs (by decide)]
      simp
    have h9 : (("stats_" ++ d ++ ".json") == summaryJsonName d) = false :=
      beq_false_of_data_fn (fun l => l.take 2) (by dsimp only; rw [estats2, esj2]; decide)
    simp [checkReportExists, h1, h2, h3, h4, h5, h6, h7, h8, h9]

/-- C10 witness: the characterisation applied to a directory holding only
a summary file. -/
theorem c10_witness :
    checkReportExists ["summary_20240101.json"] "20240101" = true :=
  (c10_check_report_exists ["summary_20240101.json"] "20240101").1.mpr
    ⟨"summary_20240101.json", by simp, Or.inr (Or.inr (by decide))⟩

/-- C8: a date whose report already exists is excluded by the dict
comprehension of `generate_report` before any per-day processing: no entry
of that date survives the filter, so none of its log files reach the
parser and no report for it is rewritten. -/
theorem c8_skip_existing_reports (dirFiles : List String)
    (dateFiles : List (String × List (List String))) (d : String)
    (h : checkReportExists dirFiles d = true) :
    (∀ fs, (d, fs) ∉ generateReportDates dirFiles dateFiles) ∧
    d ∉ (generateReportDates dirFiles dateFiles).map Prod.fst := by
  constructor
  · intro fs hmem
    have hfil := (List.mem_filter.mp hmem).2
    simp [h] at hfil
  · intro hmem
    simp only [List.mem_map] at hmem
    obtain ⟨p, hp, hfst⟩ := hmem
    have hfil := (List.mem_filter.mp hp).2
    rw [hfst] at hfil
    simp [h] at hfil

/-- C8 witness: with `report_20240101.json` present, the date 20240101 is
dropped while 20240102 would still be processed. -/
theorem c8_witness :
    checkReportExists ["report_20240101.json"] "20240101" = true ∧
    "20240101" ∉ (generateReportDates ["report_20240101.json"]
      [("20240101", [["Refreshing:"]]), ("20240102", [["Refreshing:"]])]).map Prod.fst :=
  ⟨by decide, (c8_skip_existing_reports ["report_20240101.json"]
    [("20240101", [["Refreshing:"]]), ("20240102", [["Refreshing:"]])] "20240101"
    (by decide)).2⟩

/-! ## The Python string order is a decidable linear order -/

/-- Totality of the code-point lexicographic order. -/
lemma lexLe_total : ∀ a b : List Char, lexLe a b = true ∨ lexLe b a = true := by
  intro a
  induction a with
  | nil => intro b; left; rfl
  | cons x xs ih =>
    intro b
    cases b with
    | nil => right; rfl
    | cons y ys =>
      by_cases h1 : x.toNat < y.toNat
      · left; simp [lexLe, h1]
      · by_cases h2 : y.toNat < x.toNat
        · right; simp [lexLe, h2]
        · rcases ih ys with h | h
          · left; simp [lexLe, h1, h2, h]
          · right; simp [lexLe, h1, h2, h]

/-- Transitivity of the code-point lexicographic order. -/
lemma lexLe_trans : ∀ a b c : List Char,
    lexLe a b = true → lexLe b c = true → lexLe a c = true := by
  intro a
  induction a with
  | nil => intro b c _ _; rfl
  | cons x xs ih =>
    intro b c hab hbc
    cases b with
    | nil => simp [lexLe] at hab
    | cons y ys =>
      cases c with
      | nil => simp [lexLe] at hbc
      | cons z zs =>
        by_cases h1 : x.toNat < y.toNat
        · by_cases h2 : y.toNat < z.toNat
          · simp [lexLe, show x.toNat < z.toNat by omega]
          · by_cases h3 : z.toNat < y.toNat
            · simp [lexLe, h2, h3] at hbc
            · simp [lexLe, show x.toNat < z.toNat by omega]
        · by_cases h1' : y.toNat < x.toNat
          · simp [lexLe, h1, h1'] at hab
          · by_cases h2 : y.toNat < z.toNat
            · simp [lexLe, show x.toNat < z.toNat by omega]
            · by_cases h3 : z.toNat < y.toNat
              · simp [lexLe, h2, h3] at hbc
              · have hxz1 : ¬ x.toNat < z.toNat := by omega
                have hxz2 : ¬ z.toNat < x.toNat := by omega
                simp only [lexLe, h1, h1', if_false] at hab
                simp only [lexLe, h2, h3, if_false] at hbc
                simp only [lexLe, hxz1, hxz2, if_false]
                exact ih ys zs hab hbc

/-- Antisymmetry of the code-point lexicographic order. -/
lemma lexLe_antisymm : ∀ a b : List Char,
    lexLe a b = true → lexLe b a = true → a = b := by
  intro a
  induction a with
  | nil =>
    intro b _ hba
    cases b with
    | nil => rfl
    | cons y ys => simp [lexLe] at hba
  | cons x xs ih =>
    intro b hab hba
    cases b with
    | nil => simp [lexLe] at hab
    | cons y ys =>
      by_cases h1 : x.toNat < y.toNat
      · simp [lexLe, h1, show ¬ y.toNat < x.toNat by omega] at hba
      · by_cases h2 : y.toNat < x.toNat
        · simp [lexLe, h1, h2] at hab
        · have hn : x.toNat = y.toNat := by omega
          have hxy : x = y := Char.ext (UInt32.ext hn)
          simp only [lexLe, h1, h2, if_false] at hab hba
          rw [hxy, ih ys hab hba]

instance : IsTotal String strLe :=
  ⟨fun a b => by
    rcases lexLe_total a.data b.data with h | h
    · exact Or.inl h
    · exact Or.inr h⟩

instance : IsTrans String strLe :=
  ⟨fun a b c hab hbc => lexLe_trans a.data b.data c.data hab hbc⟩

instance : IsAntisymm String strLe :=
  ⟨fun a b hab hba => String.ext (lexLe_antisymm a.data b.data hab hba)⟩

/-! ## Group-key lemmas -/

/-- The group keys are distinct. -/
lemma sortedKeys_nodup (l : List String) : (sortedKeys l).Nodup :=
  ((List.perm_insertionSort strLe l.dedup).nodup_iff).mpr (List.nodup_dedup l)

/-- The group keys are exactly the values occurring in the column. -/
lemma mem_sortedKeys {x : String} {l : List String} : x ∈ sortedKeys l ↔ x ∈ l := by
  rw [sortedKeys, (List.perm_insertionSort strLe l.dedup).mem_iff, List.mem_dedup]

/-- The integer group keys are distinct. -/
lemma sortedKeysNat_nodup (l : List ℕ) : (sortedKeysNat l).Nodup :=
  ((List.perm_insertionSort _ l.dedup).nodup_iff).mpr (List.nodup_dedup l)

/-- The integer group keys are exactly the values occurring in the
column. -/
lemma mem_sortedKeysNat {x : ℕ} {l : List ℕ} : x ∈ sortedKeysNat l ↔ x ∈ l := by
  rw [sortedKeysNat, (List.perm_insertionSort _ l.dedup).mem_iff, List.mem_dedup]

/-- Splitting a mapped sum along a Boolean predicate. -/
lemma sum_map_filter_split {α : Type} (p : α → Bool) (val : α → ℕ) (l : List α) :
    ((l.filter p).map val).sum + ((l.filter (fun a => !p a)).map val).sum =
      (l.map val).sum := by
  induction l with
  | nil => simp
  | cons a t ih =>
    by_cases hp : p a
    · simp [List.filter_cons, hp]
      omega
    · have hp' : p a = false := by simpa using hp
      simp [List.filter_cons, hp']
      omega

/-- Grouping partitions the column: summing the per-group sums over a
duplicate-free key list covering every row gives the total sum. -/
lemma sum_filter_partition {α κ : Type} [DecidableEq κ] (key : α → κ) (val : α → ℕ) :
    ∀ (K : List κ) (l : List α), K.Nodup → (∀ a ∈ l, key a ∈ K) →
      (K.map (fun k => ((l.filter (fun a => decide (key a = k))).map val).sum)).sum =
        (l.map val).sum := by
  intro K
  induction K with
  | nil =>
    intro l _ hall
    cases l with
    | nil => simp
    | cons a t => exact absurd (hall a (by simp)) (by simp)
  | cons k ks ih =>
    intro l hnd hall
    rw [List.map_cons, List.sum_cons]
    have hk : k ∉ ks := (List.nodup_cons.mp hnd).1
    have hnd' : ks.Nodup := (List.nodup_cons.mp hnd).2
    have hmapeq : ks.map (fun q => ((l.filter (fun a => decide (key a = q))).map val).sum) =
        ks.map (fun q => (((l.filter (fun a => !decide (key a = k))).filter
          (fun a => decide (key a = q))).map val).sum) := by
      apply List.map_congr_left
      intro q hq
      rw [List.filter_filter]
      refine congrArg List.sum (congrArg (List.map val) (List.filter_congr ?_))
      intro a _
      by_cases he : key a = q
      · have hne : key a ≠ k := fun hc => hk (by rw [hc.symm.trans he]; exact hq)
        have hqk : ¬ q = k := fun hqk => hne (he.trans hqk)
        simp [he, hqk]
      · simp [he]
    rw [hmapeq, ih (l.filter (fun a => !decide (key a = k))) hnd' ?cover]
    · exact sum_map_filter_split (fun a => decide (key a = k)) val l
    case cover =>
      intro a ha
      have hmem := List.mem_filter.mp ha
      rcases List.mem_cons.mp (hall a hmem.1) with h | h
      · exfalso
        have := hmem.2
        simp [h] at this
      · exact h

/-- The day total computed by summing the per-process sums equals the
plain sum over all records. -/
lemma totalUploadByGroups_eq (recs : List TrafficRecord) :
    totalUploadByGroups recs = (recs.map (fun r => r.upload_bps)).sum := by
  unfold totalUploadByGroups groupBy procKeys
  exact sum_filter_partition (fun r => r.process_name) (fun r => r.upload_bps)
    _ recs (sortedKeys_nodup _)
    (fun r hr => mem_sortedKeys.mpr (List.mem_map_of_mem _ hr))

/-- Same for download. -/
lemma totalDownloadByGroups_eq (recs : List TrafficRecord) :
    totalDownloadByGroups recs = (recs.map (fun r => r.download_bps)).sum := by
  unfold totalDownloadByGroups groupBy procKeys
  exact sum_filter_partition (fun r => r.process_name) (fun r => r.download_bps)
    _ recs (sortedKeys_nodup _)
    (fun r hr => mem_sortedKeys.mpr (List.mem_map_of_mem _ hr))

/-- C5 counterexample: for a day whose only record has zero upload, the
process summary's upload percentage share is NaN (modelled `none`) — the
float quotient `0 / 0` — not the defined value `0` the claim requires. -/
theorem c5_counterexample :
    (processSummary [recZero]).map (fun row => row.upload_pct) = [none] ∧
    ¬ ((processSummary [recZero]).map (fun row => row.upload_pct) = [some 0]) := by
  exact ⟨by decide, by decide⟩

/-- C5 (amended): the day total used by the percentage is the sum over all
records; when it is positive the upload share equals the process's upload
sum divided by the day total times 100, rounded half-to-even to two
decimals; when the day total is zero the share is NaN (`none`), not 0. -/
theorem c5_upload_pct (recs : List TrafficRecord) (k : String) :
    totalUploadByGroups recs = (recs.map (fun r => r.upload_bps)).sum ∧
    ((recs.map (fun r => r.upload_bps)).sum = 0 → (procRow recs k).upload_pct = none) ∧
    ((recs.map (fun r => r.upload_bps)).sum ≠ 0 → (procRow recs k).upload_pct =
      some (roundTo2 ((((groupBy (fun r => r.process_name) recs k).map
        (fun r => r.upload_bps)).sum : ℚ) /
        ((recs.map (fun r => r.upload_bps)).sum : ℚ) * 100))) := by
  have htot := totalUploadByGroups_eq recs
  refine ⟨htot, ?_, ?_⟩
  · intro h0
    simp [procRow, pctShare, htot, h0]
  · intro hne
    simp [procRow, pctShare, htot, hne, Function.comp_def]

/-- C5 witness: the amended percentage theorem at a one-record day with
positive upload. -/
theorem c5_witness :
    (([recUdp].map (fun r => r.upload_bps)).sum ≠ 0) ∧
    (procRow [recUdp] "p1").upload_pct =
      some (roundTo2 ((((groupBy (fun r => r.process_name) [recUdp] "p1").map
        (fun r => r.upload_bps)).sum : ℚ) /
        (([recUdp].map (fun r => r.upload_bps)).sum : ℚ) * 100)) :=
  ⟨by decide, (c5_upload_pct [recUdp] "p1").2.2 (by decide)⟩

/-! ## Mode lemmas -/

/-- Reflexivity of the code-point lexicographic order. -/
lemma lexLe_refl : ∀ l : List Char, lexLe l l = true := by
  intro l
  induction l with
  | nil => rfl
  | cons a t ih => simp [lexLe, ih]

/-- Every element is bounded by the list maximum. -/
lemma le_maxNat {l : List ℕ} {x : ℕ} (h : x ∈ l) : x ≤ maxNat l := by
  induction l with
  | nil => simp at h
  | cons a t ih =>
    rcases List.mem_cons.mp h with h | h
    · rw [h, maxNat, List.foldr_cons]
      exact le_max_left _ _
    · rw [maxNat, List.foldr_cons]
      exact le_trans (ih h) (le_max_right _ _)

/-- `maxNat` unfolds on a cons cell. -/
lemma maxNat_cons (a : ℕ) (t : List ℕ) : maxNat (a :: t) = max a (maxNat t) := rfl

/-- The list maximum is attained (or the list's values never exceed the
zero seed). -/
lemma maxNat_mem : ∀ {l : List ℕ}, l ≠ [] → maxNat l ∈ l ∨ maxNat l = 0 := by
  intro l
  induction l with
  | nil => intro h; exact absurd rfl h
  | cons a t ih =>
    intro _
    cases t with
    | nil => left; simp [maxNat]
    | cons b u =>
      rcases ih (by simp) with h | h
      · rw [maxNat_cons]
        rcases le_total (maxNat (b :: u)) a with hle | hle
        · left; rw [max_eq_left hle]; simp
        · left
          rw [max_eq_right hle]
          exact List.mem_cons_of_mem a h
      · rw [maxNat_cons, h]
        left
        simp

/-- C6 counterexample: two records for one remote with a protocol tie
(`udp` seen first, then `tcp`).  The summary reports `tcp` — pandas
`mode()[0]` returns ties in ascending sorted order — while the claimed
first-seen tie-break would report `udp`. -/
theorem c6_counterexample :
    (remoteSummary [recUdp, recTcp]).map (fun row => row.common_protocol) = ["tcp"] ∧
    commonProtocolFirstSeen (([recUdp, recTcp].filter
      (fun r => decide (r.remote_address = "1.2.3.4"))).map (fun r => r.protocol)) = "udp" ∧
    ([recUdp, recTcp].map (fun r => r.protocol)).count "udp" =
      ([recUdp, recTcp].map (fun r => r.protocol)).count "tcp" := by
  exact ⟨by decide, by decide, by decide⟩

/-- C6 (amended): the reported common protocol occurs in the group, has
maximal occurrence count, and among equally frequent protocols it is the
lexicographically least (pandas `mode()` sorts, so `mode()[0]` breaks ties
towards the smallest string, not the first seen). -/
theorem c6_common_protocol (ps : List String) (hne : ps ≠ []) :
    commonProtocol ps ∈ ps ∧
    (∀ p ∈ ps, ps.count p ≤ ps.count (commonProtocol ps)) ∧
    (∀ p ∈ ps, ps.count p = ps.count (commonProtocol ps) → strLe (commonProtocol ps) p) := by
  obtain ⟨p₀, hp₀⟩ := List.exists_mem_of_ne_nil ps hne
  have hmapne : (sortedKeys ps).map (fun c => ps.count c) ≠ [] := by
    intro hcn
    have := List.mem_map_of_mem (fun c => ps.count c) (mem_sortedKeys.mpr hp₀)
    rw [hcn] at this
    simp at this
  have hattain : ∃ c ∈ sortedKeys ps,
      ps.count c = maxNat ((sortedKeys ps).map (fun c => ps.count c)) := by
    rcases maxNat_mem hmapne with h | h
    · obtain ⟨c, hc, hcm⟩ := List.mem_map.mp h
      exact ⟨c, hc, hcm⟩
    · have h2 : ps.count p₀ ≤ maxNat ((sortedKeys ps).map (fun c => ps.count c)) :=
        le_maxNat (List.mem_map_of_mem _ (mem_sortedKeys.mpr hp₀))
      have h3 : ps.count p₀ = 0 := by omega
      exact absurd (List.count_eq_zero.mp h3) (by simpa using hp₀)
  have hfil : (sortedKeys ps).filter
      (fun c => ps.count c == maxNat ((sortedKeys ps).map (fun c => ps.count c))) ≠ [] := by
    obtain ⟨c, hc, hcm⟩ := hattain
    intro hnil
    have hin : c ∈ (sortedKeys ps).filter
        (fun c => ps.count c == maxNat ((sortedKeys ps).map (fun c => ps.count c))) :=
      List.mem_filter.mpr ⟨hc, by simp [hcm]⟩
    rw [hnil] at hin
    simp at hin
  cases hS : (sortedKeys ps).filter
      (fun c => ps.count c == maxNat ((sortedKeys ps).map (fun c => ps.count c))) with
  | nil => exact absurd hS hfil
  | cons c0 t0 =>
    have hcp : commonProtocol ps = c0 := by
      simp only [commonProtocol]
      rw [hS]
      rfl
    have hc0 : c0 ∈ (sortedKeys ps).filter
        (fun c => ps.count c == maxNat ((sortedKeys ps).map (fun c => ps.count c))) := by
      rw [hS]
      simp
    have hc0c := List.mem_filter.mp hc0
    have hc0m : ps.count c0 = maxNat ((sortedKeys ps).map (fun c => ps.count c)) := by
      simpa using hc0c.2
    have hsorted : List.Sorted strLe (sortedKeys ps) := by
      unfold sortedKeys
      exact List.sorted_insertionSort strLe _
    refine ⟨?_, ?_, ?_⟩
    · rw [hcp]
      exact mem_sortedKeys.mp hc0c.1
    · intro p hp
      rw [hcp, hc0m]
      exact le_maxNat (List.mem_map_of_mem _ (mem_sortedKeys.mpr hp))
    · intro p hp hcount
      rw [hcp]
      have hpm : ps.count p = maxNat ((sortedKeys ps).map (fun c => ps.count c)) := by
        rw [hcount, hcp, hc0m]
      have hpf : p ∈ (sortedKeys ps).filter
          (fun c => ps.count c == maxNat ((sortedKeys ps).map (fun c => ps.count c))) :=
        List.mem_filter.mpr ⟨mem_sortedKeys.mpr hp, by simp [hpm]⟩
      rw [hS] at hpf
      have hsorted2 : List.Sorted strLe (c0 :: t0) := by
        rw [← hS]
        exact hsorted.filter _
      rcases List.mem_cons.mp hpf with h | h
      · rw [h]
        exact lexLe_refl _
      · exact (List.pairwise_cons.mp hsorted2).1 p h

/-- C6 witness: the amended mode theorem at the tied group. -/
theorem c6_witness :
    (["udp", "tcp"] : List String) ≠ [] ∧
    (commonProtocol ["udp", "tcp"] ∈ (["udp", "tcp"] : List String) ∧
    (∀ p ∈ (["udp", "tcp"] : List String),
      (["udp", "tcp"] : List String).count p ≤
        (["udp", "tcp"] : List String).count (commonProtocol ["udp", "tcp"])) ∧
    (∀ p ∈ (["udp", "tcp"] : List String),
      (["udp", "tcp"] : List String).count p =
        (["udp", "tcp"] : List String).count (commonProtocol ["udp", "tcp"]) →
      strLe (commonProtocol ["udp", "tcp"]) p)) :=
  ⟨by decide, c6_common_protocol ["udp", "tcp"] (by decide)⟩

/-! ## Permutation invariance of the aggregation (C7) -/

/-- Sorting a ℕ multiset is permutation-invariant. -/
lemma insertionSortNat_perm_eq {l l' : List ℕ} (h : l.Perm l') :
    List.insertionSort (· ≤ ·) l = List.insertionSort (· ≤ ·) l' := by
  apply List.eq_of_perm_of_sorted (r := (· ≤ · : ℕ → ℕ → Prop))
  · exact (List.perm_insertionSort _ l).trans (h.trans (List.perm_insertionSort _ l').symm)
  · exact List.sorted_insertionSort _ l
  · exact List.sorted_insertionSort _ l'

/-- The group keys of a column depend only on its multiset of values. -/
lemma sortedKeys_perm_eq {l l' : List String} (h : l.Perm l') :
    sortedKeys l = sortedKeys l' := by
  apply List.eq_of_perm_of_sorted (r := strLe)
  · exact (List.perm_insertionSort _ l.dedup).trans
      (h.dedup.trans (List.perm_insertionSort _ l'.dedup).symm)
  · exact List.sorted_insertionSort _ l.dedup
  · exact List.sorted_insertionSort _ l'.dedup

/-- Same for integer keys. -/
lemma sortedKeysNat_perm_eq {l l' : List ℕ} (h : l.Perm l') :
    sortedKeysNat l = sortedKeysNat l' := by
  apply List.eq_of_perm_of_sorted (r := (· ≤ · : ℕ → ℕ → Prop))
  · exact (List.perm_insertionSort _ l.dedup).trans
      (h.dedup.trans (List.perm_insertionSort _ l'.dedup).symm)
  · exact List.sorted_insertionSort _ l.dedup
  · exact List.sorted_insertionSort _ l'.dedup

/-- The `max` aggregate is permutation-invariant. -/
lemma maxNat_perm {l l' : List ℕ} (h : l.Perm l') : maxNat l = maxNat l' := by
  haveI : LeftCommutative (max : ℕ → ℕ → ℕ) := ⟨fun a b c => max_left_comm a b c⟩
  exact List.Perm.foldr_eq h 0

/-- The distinct-count aggregate is permutation-invariant. -/
lemma nunique_perm {α : Type} [DecidableEq α] {l l' : List α} (h : l.Perm l') :
    nunique l = nunique l' := h.dedup.length_eq

/-- All scalar aggregates of a numeric column — sum, count, max, mean,
sample variance and every linear-interpolation quantile — depend only on
the multiset of values. -/
lemma natStats_of_perm {xs ys : List ℕ} (h : xs.Perm ys) :
    xs.sum = ys.sum ∧ xs.length = ys.length ∧ maxNat xs = maxNat ys ∧
    meanQ xs = meanQ ys ∧ sampleVarQ xs = sampleVarQ ys ∧
    ∀ p : ℚ, quantileLinear xs p = quantileLinear ys p := by
  have hsum := h.sum_eq
  have hlen := h.length_eq
  have hmean : meanQ xs = meanQ ys := by
    unfold meanQ
    rw [hsum, hlen]
  refine ⟨hsum, hlen, maxNat_perm h, hmean, ?_, ?_⟩
  · unfold sampleVarQ
    rw [hlen, hmean]
    have hsq : ((xs.map (fun x : ℕ => ((x : ℚ) - meanQ ys) ^ 2)).sum) =
        ((ys.map (fun x : ℕ => ((x : ℚ) - meanQ ys) ^ 2)).sum) :=
      (h.map _).sum_eq
    rw [hsq]
  · intro p
    unfold quantileLinear
    rw [insertionSortNat_perm_eq h]

/-- The per-key group of a permuted record list is a permutation of the
original group. -/
lemma groupBy_perm {κ : Type} [DecidableEq κ] (key : TrafficRecord → κ)
    {recs recs' : List TrafficRecord} (h : recs.Perm recs') (k : κ) :
    (groupBy key recs k).Perm (groupBy key recs' k) := h.filter _

/-- Per-process summary rows are permutation-invariant. -/
lemma procRow_perm {recs recs' : List TrafficRecord} (h : recs.Perm recs') (k : String) :
    procRow recs k = procRow recs' k := by
  have hg := groupBy_perm (fun r => r.process_name) h k
  have hups := natStats_of_perm (hg.map (fun r => r.upload_bps))
  have hdowns := natStats_of_perm (hg.map (fun r => r.download_bps))
  have htotu : totalUploadByGroups recs = totalUploadByGroups recs' := by
    rw [totalUploadByGroups_eq, totalUploadByGroups_eq]
    exact (h.map _).sum_eq
  have htotd : totalDownloadByGroups recs = totalDownloadByGroups recs' := by
    rw [totalDownloadByGroups_eq, totalDownloadByGroups_eq]
    exact (h.map _).sum_eq
  have hpids : nunique ((groupBy (fun r => r.process_name) recs k).map (fun r => r.pid)) =
      nunique ((groupBy (fun r => r.process_name) recs' k).map (fun r => r.pid)) :=
    nunique_perm (hg.map _)
  have hrems : nunique ((groupBy (fun r => r.process_name) recs k).map
        (fun r => r.remote_address)) =
      nunique ((groupBy (fun r => r.process_name) recs' k).map (fun r => r.remote_address)) :=
    nunique_perm (hg.map _)
  simp only [procRow, hups.1, hups.2.2.1, hups.2.2.2.1, hups.2.2.2.2.1,
    hdowns.1, hdowns.2.2.1, hdowns.2.2.2.1, hdowns.2.2.2.2.1,
    hpids, hrems, htotu, htotd]

/-- The mode-based common protocol is permutation-invariant. -/
lemma commonProtocol_perm {ps ps' : List String} (h : ps.Perm ps') :
    commonProtocol ps = commonProtocol ps' := by
  simp only [commonProtocol, sortedKeys_perm_eq h, h.count_eq]

/-- Per-remote summary rows are permutation-invariant. -/
lemma remoteRow_perm {recs recs' : List TrafficRecord} (h : recs.Perm recs') (k : String) :
    remoteRow recs k = remoteRow recs' k := by
  have hg := groupBy_perm (fun r => r.remote_address) h k
  have hups := natStats_of_perm (hg.map (fun r => r.upload_bps))
  have hdowns := natStats_of_perm (hg.map (fun r => r.download_bps))
  have hprocs : nunique ((groupBy (fun r => r.remote_address) recs k).map
        (fun r => r.process_name)) =
      nunique ((groupBy (fun r => r.remote_address) recs' k).map (fun r => r.process_name)) :=
    nunique_perm (hg.map _)
  have hproto : commonProtocol ((groupBy (fun r => r.remote_address) recs k).map
        (fun r => r.protocol)) =
      commonProtocol ((groupBy (fun r => r.remote_address) recs' k).map (fun r => r.protocol)) :=
    commonProtocol_perm (hg.map _)
  simp only [remoteRow, hups.1, hups.2.2.1, hups.2.2.2.1,
    hdowns.1, hdowns.2.2.1, hdowns.2.2.2.1, hprocs, hproto]

/-- `_calculate_process_summary` is permutation-invariant. -/
lemma processSummary_perm {recs recs' : List TrafficRecord} (h : recs.Perm recs') :
    processSummary recs = processSummary recs' := by
  unfold processSummary procKeys
  rw [show sortedKeys (recs.map (fun r => r.process_name)) =
      sortedKeys (recs'.map (fun r => r.process_name)) from sortedKeys_perm_eq (h.map _)]
  exact List.map_congr_left (fun k _ => procRow_perm h k)

/-- `_calculate_remote_summary` is permutation-invariant. -/
lemma remoteSummary_perm {recs recs' : List TrafficRecord} (h : recs.Perm recs') :
    remoteSummary recs = remoteSummary recs' := by
  unfold remoteSummary
  rw [sortedKeys_perm_eq (h.map _)]
  exact List.map_congr_left (fun k _ => remoteRow_perm h k)

/-- `_calculate_time_summary` is permutation-invariant. -/
lemma hourlySummary_perm {recs recs' : List TrafficRecord} (hp : recs.Perm recs') :
    hourlySummary recs = hourlySummary recs' := by
  unfold hourlySummary
  rw [sortedKeysNat_perm_eq (hp.map _)]
  apply List.map_congr_left
  intro hr _
  have hg : (recs.filter (fun r => decide (hourOf r = hr))).Perm
      (recs'.filter (fun r => decide (hourOf r = hr))) := hp.filter _
  have h1 := (hg.map (fun r => r.upload_bps)).sum_eq
  have h2 := (hg.map (fun r => r.download_bps)).sum_eq
  have h3 := nunique_perm (hg.map (fun r => r.process_name))
  simp only [h1, h2, h3]

/-- `_get_top_items` with a summed column is permutation-invariant. -/
lemma topItemsByField_perm {recs recs' : List TrafficRecord} (h : recs.Perm recs')
    (key : TrafficRecord → String) (field : TrafficRecord → ℕ) (n : ℕ) :
    topItemsByField recs key field n = topItemsByField recs' key field n := by
  unfold topItemsByField
  rw [sortedKeys_perm_eq (h.map _)]
  congr 1
  apply List.map_congr_left
  intro k _
  rw [((groupBy_perm key h k).map field).sum_eq]

/-- `_get_top_items` with the count pseudo-metric is
permutation-invariant. -/
lemma topItemsByCount_perm {recs recs' : List TrafficRecord} (h : recs.Perm recs')
    (key : TrafficRecord → ℕ) (n : ℕ) :
    topItemsByCount recs key n = topItemsByCount recs' key n := by
  unfold topItemsByCount
  rw [sortedKeysNat_perm_eq (h.map _)]
  congr 1
  apply List.map_congr_left
  intro k _
  rw [(groupBy_perm key h k).length_eq]

/-- The per-direction statistics block is permutation-invariant. -/
lemma trafficStats_perm {xs ys : List ℕ} (h : xs.Perm ys) :
    trafficStats xs = trafficStats ys := by
  obtain ⟨h1, _, h3, h4, _, h6⟩ := natStats_of_perm h
  unfold trafficStats
  simp only [h1, h3, h4, h6]

/-- The statistics report is permutation-invariant. -/
lemma statsReport_perm {recs recs' : List TrafficRecord} (h : recs.Perm recs') :
    statsReport recs = statsReport recs' := by
  have hu := trafficStats_perm (h.map (fun r => r.upload_bps))
  have hd := trafficStats_perm (h.map (fun r => r.download_bps))
  have hports := nunique_perm (h.map (fun r => r.local_port))
  have hprocs := nunique_perm (h.map (fun r => r.process_name))
  have hkeys : procKeys recs = procKeys recs' := by
    unfold procKeys
    exact sortedKeys_perm_eq (h.map _)
  have hlen := h.length_eq
  have hmc : (procKeys recs).map (fun k =>
        (k, (groupBy (fun r => r.process_name) recs k).length)) =
      (procKeys recs').map (fun k =>
        (k, (groupBy (fun r => r.process_name) recs' k).length)) := by
    rw [hkeys]
    apply List.map_congr_left
    intro k _
    rw [(groupBy_perm _ h k).length_eq]
  have hmt : (procKeys recs).map (fun k =>
        (k, ((groupBy (fun r => r.process_name) recs k).map (fun r => r.upload_bps)).sum)) =
      (procKeys recs').map (fun k =>
        (k, ((groupBy (fun r => r.process_name) recs' k).map (fun r => r.upload_bps)).sum)) := by
    rw [hkeys]
    apply List.map_congr_left
    intro k _
    rw [((groupBy_perm _ h k).map _).sum_eq]
  unfold statsReport
  simp only [hu, hd, hports, hprocs, hlen, hmc, hmt]

/-- The values of the flattened per-row custom-metric series for one key,
read off the enumerated rows, are the plain filtered values. -/
lemma enum_filter_entry_values (k : String) (l : List TrafficRecord) :
    ∀ n : ℕ,
      (((List.enumFrom n l).filter (fun e => decide (e.2.remote_address = k))).map
        (fun e => ((k, e.1), e.2.upload_bps + e.2.download_bps))).map (fun e => e.2) =
      (l.filter (fun r => decide (r.remote_address = k))).map
        (fun r => r.upload_bps + r.download_bps) := by
  induction l with
  | nil => intro n; rfl
  | cons a t ih =>
    intro n
    rw [List.enumFrom_cons]
    by_cases hp : a.remote_address = k
    · simp [List.filter_cons, hp, ih (n + 1)]
    · simp [List.filter_cons, hp, ih (n + 1)]

/-- Concatenations of pointwise-permuted pieces are permuted. -/
lemma flatMap_perm_pointwise {K : List String} {f g : String → List ℕ}
    (hfg : ∀ k ∈ K, (f k).Perm (g k)) : (K.flatMap f).Perm (K.flatMap g) := by
  induction K with
  | nil => exact List.Perm.refl _
  | cons k ks ih =>
    simp only [List.flatMap_cons]
    exact (hfg k (by simp)).append (ih (fun x hx => hfg x (by simp [hx])))

/-- The multiset of values of the custom-metric series is
permutation-invariant (its labels are not: they embed row positions). -/
lemma customValues_perm {recs recs' : List TrafficRecord} (h : recs.Perm recs') :
    ((customTrafficEntries recs).map (fun e => e.2)).Perm
      ((customTrafficEntries recs').map (fun e => e.2)) := by
  unfold customTrafficEntries
  rw [sortedKeys_perm_eq (h.map _), List.map_flatMap, List.map_flatMap]
  apply flatMap_perm_pointwise
  intro k _
  rw [show recs.enum = List.enumFrom 0 recs from rfl,
    show recs'.enum = List.enumFrom 0 recs' from rfl,
    enum_filter_entry_values k recs 0, enum_filter_entry_values k recs' 0]
  exact (h.filter _).map _

/-- Two descending stable sorts of entry lists with permuted value columns
have equal value columns. -/
lemma nlargest_map_values {e e' : List ((String × ℕ) × ℕ)}
    (h : (e.map (fun x => x.2)).Perm (e'.map (fun x => x.2))) :
    ((List.insertionSort (fun a b => b.2 ≤ a.2) e).map (fun x => x.2)) =
    ((List.insertionSort (fun a b => b.2 ≤ a.2) e').map (fun x => x.2)) := by
  haveI : IsTotal ((String × ℕ) × ℕ) (fun a b => b.2 ≤ a.2) := ⟨fun a b => le_total b.2 a.2⟩
  haveI : IsTrans ((String × ℕ) × ℕ) (fun a b => b.2 ≤ a.2) :=
    ⟨fun _ _ _ hab hbc => le_trans hbc hab⟩
  haveI : IsAntisymm ℕ (fun x y => y ≤ x) := ⟨fun a b h1 h2 => le_antisymm h2 h1⟩
  apply List.eq_of_perm_of_sorted (r := fun x y : ℕ => y ≤ x)
  · exact ((List.perm_insertionSort _ e).map _).trans
      (h.trans ((List.perm_insertionSort _ e').map _).symm)
  · exact List.Pairwise.map _ (fun a b hab => hab) (List.sorted_insertionSort _ e)
  · exact List.Pairwise.map _ (fun a b hab => hab) (List.sorted_insertionSort _ e')

/-- The custom-metric top-10 has permutation-invariant values, and takes
the single-group error path for one ordering iff it does for the other. -/
lemma topRemotes_values_perm {recs recs' : List TrafficRecord} (h : recs.Perm recs') :
    (topRemotesByTraffic recs).map (fun l => l.map (fun e => e.2)) =
      (topRemotesByTraffic recs').map (fun l => l.map (fun e => e.2)) := by
  have hempty : recs.isEmpty = recs'.isEmpty := by
    cases recs <;> cases recs' <;> first
      | rfl
      | (have hlen := h.length_eq; simp at hlen)
  have hkeys : sortedKeys (recs.map (fun r => r.remote_address)) =
      sortedKeys (recs'.map (fun r => r.remote_address)) := sortedKeys_perm_eq (h.map _)
  unfold topRemotesByTraffic
  rw [hempty, hkeys]
  by_cases he : recs'.isEmpty = true
  · simp [he]
  · have he' : recs'.isEmpty = false := by simpa using he
    by_cases hk : (sortedKeys (recs'.map (fun r => r.remote_address))).length = 1
    · simp [he', hk]
    · simp only [he', Bool.false_eq_true, if_false, hk, Option.map_some', Option.some.injEq]
      rw [List.map_take, List.map_take, nlargest_map_values (customValues_perm h)]

/-- C7 counterexample: swapping two same-remote records changes the
`top_remotes_by_traffic` output although the two inputs are permutations
of each other: the day has two remote-address groups (`a.com`, `b.com`),
so `groupby(...).apply` takes the (key, row)-MultiIndex path — not the
single-group error path — and the item labels embed the original
DataFrame row positions, which the swap exchanges.  The aggregation
output is therefore not identical under shuffling, contradicting the
claim as stated. -/
theorem c7_counterexample :
    (topRemotesByTraffic [recSmall, recBig]).isSome = true ∧
    topRemotesByTraffic [recSmall, recBig] ≠ topRemotesByTraffic [recBig, recSmall] ∧
    List.Perm [recSmall, recBig] [recBig, recSmall] :=
  ⟨by decide, by decide, List.Perm.swap recBig recSmall []⟩

/-- C7 (amended): permuting the input records leaves the process summary,
remote summary, hourly summary, top processes by upload/download, most
active ports and the scalar statistics report (sums, counts, distinct
counts, means, variances, percentiles, idxmax winners) equal outright.
`top_remotes_by_traffic` is not invariant: with at least two
remote-address groups its item labels embed original row positions and
change under shuffling; only its values and its behaviour on the
single-group error path (a `TypeError`, modelled `none`) are
order-invariant.  (The row-order-dependent tie order of the
`value_counts` frequency tables is outside the modelled scope.) -/
theorem c7_aggregation_perm (recs recs' : List TrafficRecord) (h : recs.Perm recs') :
    processSummary recs = processSummary recs' ∧
    remoteSummary recs = remoteSummary recs' ∧
    hourlySummary recs = hourlySummary recs' ∧
    topProcessesByUpload recs = topProcessesByUpload recs' ∧
    topProcessesByDownload recs = topProcessesByDownload recs' ∧
    mostActivePorts recs = mostActivePorts recs' ∧
    statsReport recs = statsReport recs' ∧
    (topRemotesByTraffic recs).map (fun l => l.map (fun e => e.2)) =
      (topRemotesByTraffic recs').map (fun l => l.map (fun e => e.2)) :=
  ⟨processSummary_perm h, remoteSummary_perm h, hourlySummary_perm h,
    topItemsByField_perm h _ _ _, topItemsByField_perm h _ _ _,
    topItemsByCount_perm h _ _, statsReport_perm h, topRemotes_values_perm h⟩

/-- C7 witness: the permutation-invariance theorem at the concrete swapped
pair, extracting the process-summary equality. -/
theorem c7_witness :
    processSummary [recSmall, recBig] = processSummary [recBig, recSmall] :=
  (c7_aggregation_perm [recSmall, recBig] [recBig, recSmall]
    (List.Perm.swap recBig recSmall [])).1
